import Mathlib

/-!
Shallow embedding of the Figma styles-and-variables exporter (src/code.js,
current plugin code) together with the legacy token generator from the
repository's earlier plugin source.  JavaScript numbers are modelled as
rationals; `NaN`/`Infinity` are outside the model (note that `x || 0` sends
`NaN` to `0` exactly like a missing field, which the model renders as
`Option.none`).  Strings are Lean strings and `toLowerCase` is modelled on
the ASCII range.
-/

namespace TokenSync

/-- ASCII model of JavaScript `String.prototype.toLowerCase` on one character. -/
def jsToLower (c : Char) : Char :=
  if 65 ≤ c.toNat ∧ c.toNat ≤ 90 then Char.ofNat (c.toNat + 32) else c

/-- `toLowerCase` on a whole string. -/
def jsToLowerStr (s : String) : String := String.mk (s.data.map jsToLower)

/-- Characters matched by the regex class `[a-z0-9]`. -/
def tokenChar (c : Char) : Bool :=
  (97 ≤ c.toNat && c.toNat ≤ 122) || (48 ≤ c.toNat && c.toNat ≤ 57)

/-- Whitespace as matched by the regex class `\s` (core ASCII part). -/
def jsWS (c : Char) : Bool :=
  c = ' ' || c = '\t' || c = '\n' || c = '\r' || c.toNat = 11 || c.toNat = 12

/-- Model of `replace(/[^a-z0-9]/g, '-')` from `generateToken`. -/
def replaceNonAlnum (l : List Char) : List Char :=
  l.map (fun c => if tokenChar c then c else '-')

/-- Model of the global replace of `-+` by `'-'` (and of `_{2,}` by `'_'`): every
    maximal run of `d` becomes a single `d`.  The boolean says whether the
    previously kept character was a `d`. -/
def collapseRunsAux (d : Char) : Bool → List Char → List Char
  | _, [] => []
  | true, c :: rest =>
    if c = d then collapseRunsAux d true rest
    else c :: collapseRunsAux d false rest
  | false, c :: rest =>
    if c = d then d :: collapseRunsAux d true rest
    else c :: collapseRunsAux d false rest

/-- Collapse runs of `d`, starting outside a run. -/
def collapseRuns (d : Char) (l : List Char) : List Char := collapseRunsAux d false l

/-- Drop one leading `d` if present: the `^-` alternative of `replace(/^-|-$/g, '')`. -/
def dropOneLead (d : Char) : List Char → List Char
  | [] => []
  | c :: rest => if c = d then rest else c :: rest

/-- Drop one trailing `d` if present: the `-$` alternative of `replace(/^-|-$/g, '')`. -/
def dropOneTrail (d : Char) : List Char → List Char
  | [] => []
  | [c] => if c = d then [] else [c]
  | c :: rest => c :: dropOneTrail d rest

/-- `generateToken` from src/code.js (the live export pipeline):
    lower-case, then globally replace `[^a-z0-9]` by `'-'`, collapse `-+` to
    `'-'`, and strip `^-|-$`. -/
def generateToken (s : String) : String :=
  String.mk
    (dropOneTrail '-' (dropOneLead '-' (collapseRuns '-' (replaceNonAlnum (s.data.map jsToLower)))))

/-- Characters kept by the regex class `[a-z0-9\s\-\_]` of the legacy token generator. -/
def legacyKeep (c : Char) : Bool := tokenChar c || jsWS c || c = '-' || c = '_'

/-- Model of `replace(/\s+/g, '-')`: every maximal whitespace run becomes one hyphen. -/
def wsRunsToDashAux : Bool → List Char → List Char
  | _, [] => []
  | true, c :: rest =>
    if jsWS c then wsRunsToDashAux true rest
    else c :: wsRunsToDashAux false rest
  | false, c :: rest =>
    if jsWS c then '-' :: wsRunsToDashAux true rest
    else c :: wsRunsToDashAux false rest

/-- Whitespace-run replacement, starting outside a run. -/
def wsRunsToDash (l : List Char) : List Char := wsRunsToDashAux false l

/-- Characters matched by the regex class `[-_]`. -/
def dashOrUnderscore (c : Char) : Bool := c = '-' || c = '_'

/-- Model of `replace(/^[-_]+|[-_]+$/g, '')`: trim all leading and trailing
    hyphens/underscores. -/
def trimDashUnderscore (l : List Char) : List Char :=
  ((l.dropWhile dashOrUnderscore).reverse.dropWhile dashOrUnderscore).reverse

/-- `styleNameToToken` from the repository's legacy plugin source:
    lower-case, strip characters outside `[a-z0-9\s\-\_]`, turn whitespace runs
    into single hyphens, collapse `_` runs and `-` runs, trim `[-_]` at both ends. -/
def styleNameToToken (s : String) : String :=
  String.mk
    (trimDashUnderscore
      (collapseRuns '-' (collapseRuns '_' (wsRunsToDash ((s.data.map jsToLower).filter legacyKeep)))))

/-- The token algorithm exactly as §4.2 of the spec words it: lower-case; strip
    characters outside `[a-z0-9\s_-]`; collapse internal whitespace runs to a
    single hyphen; collapse repeated underscore runs and hyphen runs; trim
    leading/trailing underscores and hyphens.  Written from the spec's words,
    for comparison with the source functions. -/
def claimedSlug (s : String) : String :=
  String.mk
    (trimDashUnderscore
      (collapseRuns '-' (collapseRuns '_' (wsRunsToDash ((s.data.map jsToLower).filter legacyKeep)))))

/-! ### Structure of `generateToken` outputs -/

/-- The first character (if any) differs from `d`. -/
def headNot (d : Char) : List Char → Prop
  | [] => True
  | c :: _ => c ≠ d

/-- The last character (if any) differs from `d`. -/
def lastNot (d : Char) : List Char → Prop
  | [] => True
  | [c] => c ≠ d
  | _ :: c :: rest => lastNot d (c :: rest)

/-- No two adjacent characters are both `d`. -/
def noRun (d : Char) : List Char → Prop
  | [] => True
  | [_] => True
  | a :: b :: rest => ¬(a = d ∧ b = d) ∧ noRun d (b :: rest)

theorem noRun_of_cons {d c : Char} {l : List Char} (h : noRun d (c :: l)) : noRun d l := by
  cases l with
  | nil => trivial
  | cons b t => exact h.2

theorem noRun_cons_of {d c : Char} {l : List Char} (h1 : c = d → headNot d l)
    (h2 : noRun d l) : noRun d (c :: l) := by
  cases l with
  | nil => trivial
  | cons b t =>
    refine ⟨fun hcd => ?_, h2⟩
    exact (h1 hcd.1) hcd.2

theorem headNot_of_noRun_cons {d c : Char} {l : List Char} (h : noRun d (c :: l))
    (hc : c = d) : headNot d l := by
  cases l with
  | nil => trivial
  | cons b t =>
    intro hb
    exact h.1 ⟨hc, hb⟩

theorem mem_replaceNonAlnum {c : Char} {l : List Char} (h : c ∈ replaceNonAlnum l) :
    tokenChar c = true ∨ c = '-' := by
  unfold replaceNonAlnum at h
  obtain ⟨a, _, ha⟩ := List.mem_map.mp h
  by_cases hta : tokenChar a = true
  · left
    rw [if_pos hta] at ha
    rwa [ha] at hta
  · right
    rw [if_neg hta] at ha
    exact ha.symm

theorem mem_collapseRunsAux {d c : Char} :
    ∀ {l : List Char} {b : Bool}, c ∈ collapseRunsAux d b l → c ∈ l ∨ c = d := by
  intro l
  induction l with
  | nil => intro b h; cases b <;> simp [collapseRunsAux] at h
  | cons a rest ih =>
    intro b h
    have core : c ∈ collapseRunsAux d true rest ∨ c ∈ collapseRunsAux d false rest →
        c ∈ a :: rest ∨ c = d := by
      intro hc
      rcases hc with hc | hc
      · rcases ih hc with h1 | h2
        · exact Or.inl (List.mem_cons_of_mem a h1)
        · exact Or.inr h2
      · rcases ih hc with h1 | h2
        · exact Or.inl (List.mem_cons_of_mem a h1)
        · exact Or.inr h2
    cases b with
    | true =>
      simp only [collapseRunsAux] at h
      by_cases had : a = d
      · rw [if_pos had] at h
        exact core (Or.inl h)
      · rw [if_neg had] at h
        rcases List.mem_cons.mp h with h1 | h2
        · exact Or.inl (h1 ▸ List.mem_cons_self a rest)
        · exact core (Or.inr h2)
    | false =>
      simp only [collapseRunsAux] at h
      by_cases had : a = d
      · rw [if_pos had] at h
        rcases List.mem_cons.mp h with h1 | h2
        · exact Or.inr h1
        · exact core (Or.inl h2)
      · rw [if_neg had] at h
        rcases List.mem_cons.mp h with h1 | h2
        · exact Or.inl (h1 ▸ List.mem_cons_self a rest)
        · exact core (Or.inr h2)

theorem collapseRunsAux_noRun (d : Char) :
    ∀ (l : List Char),
      (noRun d (collapseRunsAux d false l)) ∧
      (noRun d (collapseRunsAux d true l) ∧ headNot d (collapseRunsAux d true l)) := by
  intro l
  induction l with
  | nil => exact ⟨trivial, trivial, trivial⟩
  | cons c rest ih =>
    obtain ⟨ihf, iht, ihh⟩ := ih
    by_cases hcd : c = d
    · refine ⟨?_, ?_, ?_⟩
      · show noRun d (collapseRunsAux d false (c :: rest))
        simp only [collapseRunsAux, if_pos hcd]
        exact noRun_cons_of (fun _ => ihh) iht
      · show noRun d (collapseRunsAux d true (c :: rest))
        simp only [collapseRunsAux, if_pos hcd]
        exact iht
      · show headNot d (collapseRunsAux d true (c :: rest))
        simp only [collapseRunsAux, if_pos hcd]
        exact ihh
    · refine ⟨?_, ?_, ?_⟩
      · show noRun d (collapseRunsAux d false (c :: rest))
        simp only [collapseRunsAux, if_neg hcd]
        exact noRun_cons_of (fun h => absurd h hcd) ihf
      · show noRun d (collapseRunsAux d true (c :: rest))
        simp only [collapseRunsAux, if_neg hcd]
        exact noRun_cons_of (fun h => absurd h hcd) ihf
      · show headNot d (collapseRunsAux d true (c :: rest))
        simp only [collapseRunsAux, if_neg hcd]
        exact hcd

theorem collapseRunsAux_fix (d : Char) :
    ∀ (l : List Char), noRun d l →
      (collapseRunsAux d false l = l ∧ (headNot d l → collapseRunsAux d true l = l)) := by
  intro l
  induction l with
  | nil => intro _; exact ⟨rfl, fun _ => rfl⟩
  | cons c rest ih =>
    intro h
    have hrest := noRun_of_cons h
    by_cases hcd : c = d
    · have hhead : headNot d rest := headNot_of_noRun_cons h hcd
      have htr : collapseRunsAux d true rest = rest := (ih hrest).2 hhead
      refine ⟨?_, ?_⟩
      · show collapseRunsAux d false (c :: rest) = c :: rest
        simp only [collapseRunsAux, if_pos hcd, htr, hcd, if_true]
      · intro hc
        simp only [headNot] at hc
        exact absurd hcd hc
    · have hfr : collapseRunsAux d false rest = rest := (ih hrest).1
      refine ⟨?_, fun _ => ?_⟩
      · show collapseRunsAux d false (c :: rest) = c :: rest
        simp only [collapseRunsAux, if_neg hcd, hfr]
      · show collapseRunsAux d true (c :: rest) = c :: rest
        simp only [collapseRunsAux, if_neg hcd, hfr]

theorem dropOneLead_headNot {d : Char} {l : List Char} (h : noRun d l) :
    headNot d (dropOneLead d l) := by
  cases l with
  | nil => trivial
  | cons c rest =>
    simp only [dropOneLead]
    by_cases hcd : c = d
    · rw [if_pos hcd]
      have hh := headNot_of_noRun_cons h hcd
      cases rest with
      | nil => trivial
      | cons b t => exact hh
    · rw [if_neg hcd]; exact hcd

theorem dropOneLead_noRun {d : Char} {l : List Char} (h : noRun d l) :
    noRun d (dropOneLead d l) := by
  cases l with
  | nil => trivial
  | cons c rest =>
    simp only [dropOneLead]
    by_cases hcd : c = d
    · rw [if_pos hcd]; exact noRun_of_cons h
    · rw [if_neg hcd]; exact h

theorem mem_dropOneLead {d c : Char} {l : List Char} (h : c ∈ dropOneLead d l) : c ∈ l := by
  cases l with
  | nil => simp only [dropOneLead] at h; exact h
  | cons a rest =>
    simp only [dropOneLead] at h
    by_cases had : a = d
    · rw [if_pos had] at h; exact List.mem_cons_of_mem a h
    · rwa [if_neg had] at h

theorem dropOneLead_fix {d : Char} {l : List Char} (h : headNot d l) :
    dropOneLead d l = l := by
  cases l with
  | nil => rfl
  | cons c rest =>
    simp only [dropOneLead]
    rw [if_neg h]

theorem mem_dropOneTrail {d c : Char} : ∀ {l : List Char}, c ∈ dropOneTrail d l → c ∈ l := by
  intro l
  induction l with
  | nil => intro h; simp [dropOneTrail] at h
  | cons a rest ih =>
    intro h
    cases rest with
    | nil =>
      simp only [dropOneTrail] at h
      by_cases had : a = d
      · rw [if_pos had] at h; cases h
      · rwa [if_neg had] at h
    | cons b t =>
      have hexp : dropOneTrail d (a :: b :: t) = a :: dropOneTrail d (b :: t) := rfl
      rw [hexp] at h
      rcases List.mem_cons.mp h with h1 | h2
      · exact h1 ▸ List.mem_cons_self a (b :: t)
      · exact List.mem_cons_of_mem a (ih h2)

theorem dropOneTrail_noRun {d : Char} : ∀ {l : List Char}, noRun d l →
    noRun d (dropOneTrail d l) := by
  intro l
  induction l with
  | nil => intro _; trivial
  | cons a rest ih =>
    intro h
    cases rest with
    | nil =>
      simp only [dropOneTrail]
      by_cases had : a = d
      · rw [if_pos had]; trivial
      · rw [if_neg had]; trivial
    | cons b t =>
      show noRun d (a :: dropOneTrail d (b :: t))
      refine noRun_cons_of (fun had => ?_) (ih (noRun_of_cons h))
      have hb : headNot d (b :: t) := headNot_of_noRun_cons h had
      cases t with
      | nil =>
        simp only [dropOneTrail]
        by_cases hbd : b = d
        · exact absurd hbd hb
        · rw [if_neg hbd]; exact hb
      | cons e t2 =>
        show headNot d (b :: dropOneTrail d (e :: t2))
        exact hb

theorem dropOneTrail_headNot {d : Char} : ∀ {l : List Char}, headNot d l →
    headNot d (dropOneTrail d l) := by
  intro l
  cases l with
  | nil => intro _; trivial
  | cons a rest =>
    intro h
    cases rest with
    | nil =>
      simp only [dropOneTrail]
      by_cases had : a = d
      · rw [if_pos had]; trivial
      · rw [if_neg had]; exact h
    | cons b t =>
      show headNot d (a :: dropOneTrail d (b :: t))
      exact h

theorem dropOneTrail_lastNot {d : Char} : ∀ {l : List Char}, noRun d l →
    lastNot d (dropOneTrail d l) := by
  intro l
  induction l with
  | nil => intro _; trivial
  | cons a rest ih =>
    intro h
    cases rest with
    | nil =>
      simp only [dropOneTrail]
      by_cases had : a = d
      · rw [if_pos had]; trivial
      · rw [if_neg had]; exact had
    | cons b t =>
      show lastNot d (a :: dropOneTrail d (b :: t))
      have htail := ih (noRun_of_cons h)
      cases t with
      | nil =>
        simp only [dropOneTrail]
        by_cases hbd : b = d
        · rw [if_pos hbd]
          show lastNot d [a]
          intro had
          exact h.1 ⟨had, hbd⟩
        · rw [if_neg hbd]
          exact hbd
      | cons e t2 =>
        show lastNot d (a :: b :: dropOneTrail d (e :: t2))
        have hexp : dropOneTrail d (b :: e :: t2) = b :: dropOneTrail d (e :: t2) := rfl
        rw [hexp] at htail
        exact htail

theorem dropOneTrail_fix {d : Char} : ∀ {l : List Char}, lastNot d l →
    dropOneTrail d l = l := by
  intro l
  induction l with
  | nil => intro _; rfl
  | cons a rest ih =>
    intro h
    cases rest with
    | nil =>
      simp only [dropOneTrail]
      rw [if_neg h]
    | cons b t =>
      show a :: dropOneTrail d (b :: t) = a :: b :: t
      rw [ih h]

theorem jsToLower_fix {c : Char} (h : tokenChar c = true ∨ c = '-') : jsToLower c = c := by
  unfold jsToLower
  rcases h with h | h
  · unfold tokenChar at h
    rw [if_neg]
    intro ⟨h1, h2⟩
    simp only [Bool.or_eq_true, Bool.and_eq_true, decide_eq_true_eq] at h
    omega
  · subst h
    rw [if_neg]
    intro ⟨h1, _⟩
    revert h1
    decide

theorem map_fix_of {α : Type} {f : α → α} : ∀ {l : List α}, (∀ c ∈ l, f c = c) →
    l.map f = l := by
  intro l
  induction l with
  | nil => intro _; rfl
  | cons a t ih =>
    intro h
    simp only [List.map_cons]
    rw [h a (List.mem_cons_self a t), ih (fun c hc => h c (List.mem_cons_of_mem a hc))]

theorem replaceNonAlnum_fix {l : List Char} (h : ∀ c ∈ l, tokenChar c = true ∨ c = '-') :
    replaceNonAlnum l = l := by
  unfold replaceNonAlnum
  refine map_fix_of (fun c hc => ?_)
  rcases h c hc with h1 | h1
  · simp [h1]
  · subst h1
    simp [tokenChar]

theorem map_jsToLower_fix {l : List Char} (h : ∀ c ∈ l, tokenChar c = true ∨ c = '-') :
    l.map jsToLower = l := map_fix_of (fun c hc => jsToLower_fix (h c hc))

theorem generateToken_shape (s : String) :
    (∀ c ∈ (generateToken s).data, tokenChar c = true ∨ c = '-') ∧
    noRun '-' (generateToken s).data ∧ headNot '-' (generateToken s).data ∧
    lastNot '-' (generateToken s).data := by
  have hdata : (generateToken s).data =
      dropOneTrail '-' (dropOneLead '-'
        (collapseRuns '-' (replaceNonAlnum (s.data.map jsToLower)))) := rfl
  rw [hdata]
  have h2run : noRun '-' (collapseRuns '-' (replaceNonAlnum (s.data.map jsToLower))) :=
    (collapseRunsAux_noRun '-' (replaceNonAlnum (s.data.map jsToLower))).1
  have h2chars : ∀ c ∈ collapseRuns '-' (replaceNonAlnum (s.data.map jsToLower)),
      tokenChar c = true ∨ c = '-' := by
    intro c hc
    rcases mem_collapseRunsAux hc with h1 | h1
    · exact mem_replaceNonAlnum h1
    · exact Or.inr h1
  have h3run := dropOneLead_noRun h2run
  have h3head := dropOneLead_headNot h2run
  have h3chars : ∀ c ∈ dropOneLead '-' (collapseRuns '-' (replaceNonAlnum (s.data.map jsToLower))),
      tokenChar c = true ∨ c = '-' := fun c hc => h2chars c (mem_dropOneLead hc)
  exact ⟨fun c hc => h3chars c (mem_dropOneTrail hc), dropOneTrail_noRun h3run,
    dropOneTrail_headNot h3head, dropOneTrail_lastNot h3run⟩

theorem generateToken_fix_of_shape {t : String}
    (hchars : ∀ c ∈ t.data, tokenChar c = true ∨ c = '-') (hrun : noRun '-' t.data)
    (hhead : headNot '-' t.data) (hlast : lastNot '-' t.data) :
    generateToken t = t := by
  unfold generateToken
  rw [map_jsToLower_fix hchars, replaceNonAlnum_fix hchars]
  unfold collapseRuns
  rw [(collapseRunsAux_fix '-' t.data hrun).1, dropOneLead_fix hhead, dropOneTrail_fix hlast]

/-- C7: the token generator is idempotent — for every input string `x`,
    `generateToken (generateToken x) = generateToken x`. -/
theorem generateToken_idem (s : String) :
    generateToken (generateToken s) = generateToken s := by
  obtain ⟨h1, h2, h3, h4⟩ := generateToken_shape s
  exact generateToken_fix_of_shape h1 h2 h3 h4

/-- C6 counterexample: on the input `"a_b"` the live token generator
    `generateToken` turns the underscore into a hyphen, while the claimed
    algorithm (`claimedSlug`, the spec's §4.2 wording) keeps it; so the claim
    that the token generator preserves underscores and removes (rather than
    replaces) out-of-set characters is false for `generateToken`. -/
theorem generateToken_underscore_cx :
    generateToken ("a_b") = "a-b" ∧ claimedSlug ("a_b") = "a_b" ∧ ("a-b" : String) ≠ "a_b" := by
  refine ⟨by decide, by decide, by decide⟩

/-- C6 amended: the claimed slug algorithm is exactly the legacy
    `styleNameToToken`; the live `generateToken` instead replaces every
    character outside `[a-z0-9]` (underscores and whitespace included) with a
    hyphen, so its output consists of lower-case alphanumerics and hyphens
    only. -/
theorem tokenGenerator_amended (s : String) :
    styleNameToToken s = claimedSlug s ∧
    (∀ c ∈ (generateToken s).data, tokenChar c = true ∨ c = '-') :=
  ⟨rfl, (generateToken_shape s).1⟩

/-- Witness for the amended C6 theorem at the concrete input `"My_Token Name"`. -/
theorem tokenGenerator_amended_witness :
    styleNameToToken ("My_Token Name") = claimedSlug ("My_Token Name") ∧
    (∀ c ∈ (generateToken ("My_Token Name")).data, tokenChar c = true ∨ c = '-') :=
  tokenGenerator_amended ("My_Token Name")

/-! ### Numbers and colors -/

/-- JavaScript `Math.round` on a rational: round half toward positive infinity,
    i.e. the floor of `q + 1/2`, computed on the numerator/denominator. -/
def jsRound (q : ℚ) : ℤ := Int.fdiv (2 * q.num + q.den) (2 * q.den)

/-- Clamp to the unit interval: `Math.max(0, Math.min(1, x))`. -/
def clamp01 (q : ℚ) : ℚ := if q < 0 then 0 else if 1 < q then 1 else q

/-- Round to two decimals: `Math.round(x * 100) / 100`. -/
def round2 (q : ℚ) : ℚ := (jsRound (q * 100) : ℚ) / 100

/-- Render a rational the way JavaScript renders the numbers occurring in this
    plugin: integers without a decimal point, other finitely-decimal values
    with their shortest decimal expansion (up to 10 places).  Rationals with no
    finite decimal expansion of at most 10 places do not occur on the modelled
    code paths and fall back to a fraction rendering. -/
def qToString (q : ℚ) : String :=
  match (List.range 11).find? (fun k => (q.num * (10 ^ k : ℤ)) % (q.den : ℤ) = 0) with
  | some 0 => toString q.num
  | some k =>
    let n : ℤ := (q.num * (10 ^ k : ℤ)) / (q.den : ℤ)
    let m : ℕ := n.natAbs
    let ip : ℕ := m / 10 ^ k
    let fr : ℕ := m % 10 ^ k
    let frs : String := toString fr
    let pad : String := String.mk (List.replicate (k - frs.length) '0')
    (if n < 0 then "-" else "") ++ toString ip ++ "." ++ pad ++ frs
  | none => toString q.num ++ "/" ++ toString q.den

/-- Lower-case hexadecimal digit. -/
def hexDigitChar (n : ℕ) : Char := if n < 10 then Char.ofNat (48 + n) else Char.ofNat (87 + n)

/-- `intValue.toString(16)` padded to two digits, for `0 ≤ n ≤ 255`. -/
def hexByte (n : ℕ) : String :=
  if n < 16 then String.mk ['0', hexDigitChar n]
  else String.mk [hexDigitChar (n / 16), hexDigitChar (n % 16)]

/-- A raw color object: JS `{r, g, b, a}` with possibly missing channels.
    A missing channel is `none`; a JS `NaN` channel behaves exactly like a
    missing one in every use below (`c || 0` and falsiness). -/
structure ColorObj where
  r : Option ℚ := none
  g : Option ℚ := none
  b : Option ℚ := none
  a : Option ℚ := none
deriving DecidableEq, Repr

/-- The per-channel `toHex` helper inside `rgbToHex`: clamp `c || 0` to
    `[0,1]`, scale to 0–255, round; the source's `isNaN`/range guard renders
    out-of-range results as `"00"` (unreachable for rational input). -/
def toHexChannel (c : Option ℚ) : String :=
  let normalizedValue := clamp01 (c.getD 0)
  let intValue := jsRound (normalizedValue * 255)
  if intValue < 0 ∨ 255 < intValue then "00"
  else hexByte intValue.toNat

/-- `rgbToHex` from src/code.js: per-channel hex with a final validation that
    yields `none` (JS `null`) exactly when all three components rendered as
    `"00"` and at least one of `r`, `g`, `b` is missing. -/
def rgbToHex (rgb : ColorObj) : Option String :=
  let hexR := toHexChannel rgb.r
  let hexG := toHexChannel rgb.g
  let hexB := toHexChannel rgb.b
  if hexR = "00" ∧ hexG = "00" ∧ hexB = "00" ∧ (rgb.r = none ∨ rgb.g = none ∨ rgb.b = none)
  then none
  else some ("#" ++ hexR ++ hexG ++ hexB)

/-- `rgbToHex` behind its non-object input guard, for callers that may pass
    `undefined`. -/
def rgbToHexOpt (rgb : Option ColorObj) : Option String :=
  match rgb with
  | none => none
  | some c => rgbToHex c

/-- Result of `figmaRgbaToStandardRgba`: 0–255 integer channels, alpha rounded
    to two decimals. -/
structure StdRgba where
  r : ℤ
  g : ℤ
  b : ℤ
  a : ℚ
deriving DecidableEq, Repr

/-- `figmaRgbaToStandardRgba` from src/code.js: clamp `channel || 0` into
    `[0,1]`, scale and round; missing alpha is 1, present alpha is clamped and
    rounded to two decimals. -/
def figmaRgbaToStandardRgba (c : ColorObj) : StdRgba :=
  { r := jsRound (clamp01 (c.r.getD 0) * 255)
    g := jsRound (clamp01 (c.g.getD 0) * 255)
    b := jsRound (clamp01 (c.b.getD 0) * 255)
    a := match c.a with
      | some a0 => round2 (clamp01 a0)
      | none => 1 }

/-- `figmaRgbaToStandardRgba` on a possibly-missing object: the source's
    input-validation branch returns opaque black. -/
def figmaRgbaOpt (c : Option ColorObj) : StdRgba :=
  match c with
  | none => { r := 0, g := 0, b := 0, a := 1 }
  | some c0 => figmaRgbaToStandardRgba c0

/-- CSS string `rgba(r, g, b, a)` as built by the source's template literals. -/
def rgbaString (r g b : ℤ) (a : ℚ) : String :=
  "rgba(" ++ toString r ++ ", " ++ toString g ++ ", " ++ toString b ++ ", " ++ qToString a ++ ")"

/-! ### Paint styles -/

/-- JS `x || d` for an optional string (the empty string is falsy). -/
def jsStrOr (x : Option String) (d : String) : String :=
  match x with
  | some s => if s = "" then d else s
  | none => d

/-- JS `String.prototype.trim` (ASCII whitespace). -/
def jsTrim (s : String) : String :=
  String.mk (((s.data.dropWhile jsWS).reverse.dropWhile jsWS).reverse)

/-- `style.description && style.description.trim()` guarding the assignment of
    the trimmed value: the optional description field of every record. -/
def cleanDescription (d : Option String) : Option String :=
  match d with
  | some s => if s ≠ "" ∧ jsTrim s ≠ "" then some (jsTrim s) else none
  | none => none

/-- `x !== undefined ? Math.round(x*100)/100 : 1` — the effective opacity used
    by `processColorStyle` and the effect CSS generator. -/
def effOpacity (o : Option ℚ) : ℚ :=
  match o with
  | some q => round2 q
  | none => 1

/-- A gradient stop `{position, color}`. -/
structure GradientStop where
  position : ℚ
  color : ColorObj
deriving DecidableEq, Repr

/-- A raw paint, dispatched on its `type` string exactly like the source.
    `gradientTransformRow` holds the entries `[0][0]` and `[0][1]` of the
    gradient transform, the only ones the source reads. -/
structure Paint where
  type : String
  color : Option ColorObj := none
  opacity : Option ℚ := none
  gradientStops : Option (List GradientStop) := none
  gradientTransformRow : Option (ℚ × ℚ) := none
  scaleMode : Option String := none
deriving DecidableEq, Repr

/-- A raw paint style as fetched from the host. -/
structure RawPaintStyle where
  name : String
  description : Option String := none
  paints : List Paint
deriving DecidableEq, Repr

/-- One stop's fragment in `generateGradientCSS`. -/
def gradientStopCSS (stop : GradientStop) : String :=
  let opacity := match stop.color.a with
    | some a0 => round2 a0
    | none => 1
  let colorValue :=
    if opacity < 1 then
      let rgba := figmaRgbaToStandardRgba stop.color
      rgbaString rgba.r rgba.g rgba.b opacity
    else
      match rgbToHex stop.color with
      | some hex => hex
      | none => "transparent"
  colorValue ++ " " ++ toString (jsRound (stop.position * 100)) ++ "%"

/-- `generateGradientCSS` from src/code.js.  `atan2deg y x` stands for
    `Math.round(Math.atan2(y, x) * 180 / Math.PI)`, which is transcendental;
    the embedding abstracts it as a parameter — no claim depends on it. -/
def generateGradientCSS (atan2deg : ℚ → ℚ → ℤ) (paint : Paint) : String :=
  match paint.gradientStops with
  | none => "transparent"
  | some stops =>
    let stopsStr := String.intercalate (", ") (stops.map gradientStopCSS)
    if paint.type = "GRADIENT_LINEAR" then
      let angle : ℤ := match paint.gradientTransformRow with
        | some rc => atan2deg rc.2 rc.1
        | none => 0
      "linear-gradient(" ++ toString angle ++ "deg, " ++ stopsStr ++ ")"
    else if paint.type = "GRADIENT_RADIAL" then
      "radial-gradient(circle, " ++ stopsStr ++ ")"
    else if paint.type = "GRADIENT_ANGULAR" then
      "conic-gradient(" ++ stopsStr ++ ")"
    else
      "linear-gradient(" ++ stopsStr ++ ")"

/-- One stop entry of the `stops` array in a gradient style record. -/
structure StopOut where
  color : Option String
  position : String
deriving DecidableEq, Repr

/-- The record built by `processColorStyle`. -/
structure ColorStyleRecord where
  name : String
  token : String
  type : String
  description : Option String := none
  value : String
  stops : Option (List StopOut) := none
  scaleMode : Option String := none
deriving DecidableEq, Repr

/-- `processColorStyle` from src/code.js. -/
def processColorStyle (atan2deg : ℚ → ℚ → ℤ) (style : RawPaintStyle) :
    Option ColorStyleRecord :=
  match style.paints.head? with
  | none => none
  | some paint =>
    let base : ColorStyleRecord :=
      { name := style.name
        token := generateToken style.name
        type := jsToLowerStr paint.type
        description := cleanDescription style.description
        value := "" }
    if paint.type = "SOLID" then
      let opacity := effOpacity paint.opacity
      if opacity < 1 then
        let rgba := figmaRgbaOpt paint.color
        some { base with value := rgbaString rgba.r rgba.g rgba.b opacity }
      else
        match rgbToHexOpt paint.color with
        | none => none
        | some hex => some { base with value := hex }
    else if paint.type = "GRADIENT_LINEAR" ∨ paint.type = "GRADIENT_RADIAL" ∨
        paint.type = "GRADIENT_ANGULAR" ∨ paint.type = "GRADIENT_DIAMOND" then
      match paint.gradientStops with
      | none => none
      | some stops =>
        if stops = [] then none
        else
          let validStops := stops.filter (fun stop => (rgbToHex stop.color).isSome)
          if validStops = [] then none
          else
            some { base with
              value := generateGradientCSS atan2deg paint
              stops := some (validStops.map (fun stop =>
                { color := rgbToHex stop.color
                  position := toString (jsRound (stop.position * 100)) ++ "%" })) }
    else if paint.type = "IMAGE" then
      some { base with value := "image", scaleMode := some (jsStrOr paint.scaleMode ("fill")) }
    else
      some { base with value := "transparent" }

/-! ### Claim C3: solid color normalization -/

theorem toHexChannel_len (c : Option ℚ) : (toHexChannel c).data.length = 2 := by
  simp only [toHexChannel, hexByte]
  split
  · rfl
  · split <;> rfl

theorem hex_black_components {hR hG hB : String} (hlR : hR.data.length = 2)
    (hlG : hG.data.length = 2) (_hlB : hB.data.length = 2)
    (h : "#" ++ hR ++ hG ++ hB = "#000000") : hR = "00" ∧ hG = "00" ∧ hB = "00" := by
  have hd : ((("#" : String).data ++ hR.data) ++ hG.data) ++ hB.data =
      ((['#'] ++ ['0', '0']) ++ ['0', '0']) ++ ['0', '0'] := by
    have hd0 := congrArg String.data h
    simp only [String.data_append] at hd0
    exact hd0
  have len1 : ((("#" : String).data ++ hR.data) ++ hG.data).length =
      ((['#'] ++ ['0', '0']) ++ ['0', '0']).length := by
    simp [List.length_append, hlR, hlG]
  obtain ⟨hd1, hB2⟩ := List.append_inj hd len1
  have len2 : (("#" : String).data ++ hR.data).length = (['#'] ++ ['0', '0']).length := by
    simp [List.length_append, hlR]
  obtain ⟨hd2, hG2⟩ := List.append_inj hd1 len2
  obtain ⟨_, hR2⟩ := List.append_inj hd2 rfl
  refine ⟨String.ext hR2, String.ext hG2, String.ext hB2⟩

theorem rgbToHex_missing_ne_black {co : ColorObj} {hex : String}
    (hmiss : co.r = none ∨ co.g = none ∨ co.b = none)
    (hhex : rgbToHex co = some hex) : hex ≠ "#000000" := by
  intro hblack
  subst hblack
  simp only [rgbToHex] at hhex
  by_cases hcond : toHexChannel co.r = "00" ∧ toHexChannel co.g = "00" ∧
      toHexChannel co.b = "00" ∧ (co.r = none ∨ co.g = none ∨ co.b = none)
  · rw [if_pos hcond] at hhex; cases hhex
  · rw [if_neg hcond] at hhex
    have hv := Option.some.inj hhex
    obtain ⟨h1, h2, h3⟩ := hex_black_components (toHexChannel_len co.r) (toHexChannel_len co.g)
      (toHexChannel_len co.b) hv
    exact hcond ⟨h1, h2, h3, hmiss⟩

/-- The C3 counterexample style: a SOLID paint whose color object carries no
    `r`, `g`, `b` channels at all, with opacity one half. -/
def ghostStyle : RawPaintStyle :=
  { name := "Ghost", paints := [{ type := "SOLID", color := some {}, opacity := some (1 / 2) }] }

/-- C3 counterexample: a SOLID paint style whose color is missing all of
    `r`, `g`, `b` is not dropped — with opacity 0.5 it is emitted as the
    zero-black rgba string `rgba(0, 0, 0, 0.5)`, contradicting the claim that
    such colors are invalid, dropped, and never emitted as zero-black. -/
theorem missingColor_rgba_cx :
    (processColorStyle (fun _ _ => 0) ghostStyle).map ColorStyleRecord.value =
      some ("rgba(0, 0, 0, 0.5)") := by with_unfolding_all decide

/-- C3 amended: for a paint style whose first paint is SOLID —
    when the effective opacity is below 1, the record is always emitted, with
    missing channels rendered as 0 inside an rgba string (never dropped); when
    the effective opacity is 1 or more, the record is dropped exactly when
    `rgbToHex` is invalid, which happens iff all three channels render as
    `"00"` and at least one of `r`, `g`, `b` is missing — and an emitted hex
    for a color with a missing channel is never the zero-black `#000000`. -/
theorem solidColor_normalization (atan2deg : ℚ → ℚ → ℤ) (style : RawPaintStyle) (paint : Paint)
    (hp : style.paints.head? = some paint) (hs : paint.type = "SOLID") :
    (effOpacity paint.opacity < 1 →
      ∃ rec, processColorStyle atan2deg style = some rec ∧
        rec.value = rgbaString (figmaRgbaOpt paint.color).r (figmaRgbaOpt paint.color).g
          (figmaRgbaOpt paint.color).b (effOpacity paint.opacity)) ∧
    (¬ effOpacity paint.opacity < 1 →
      ((processColorStyle atan2deg style = none ↔ rgbToHexOpt paint.color = none) ∧
       (∀ co, paint.color = some co →
         ((rgbToHex co = none ↔
            (toHexChannel co.r = "00" ∧ toHexChannel co.g = "00" ∧ toHexChannel co.b = "00" ∧
             (co.r = none ∨ co.g = none ∨ co.b = none))) ∧
          ((co.r = none ∨ co.g = none ∨ co.b = none) →
            ∀ hex, rgbToHex co = some hex → hex ≠ "#000000"))))) := by
  constructor
  · intro hlt
    have hmain : processColorStyle atan2deg style = some
        { name := style.name, token := generateToken style.name
          type := jsToLowerStr paint.type, description := cleanDescription style.description
          value := rgbaString (figmaRgbaOpt paint.color).r (figmaRgbaOpt paint.color).g
            (figmaRgbaOpt paint.color).b (effOpacity paint.opacity) } := by
      simp only [processColorStyle, hp]
      rw [if_pos hs, if_pos hlt]
    exact ⟨_, hmain, rfl⟩
  · intro hge
    constructor
    · simp only [processColorStyle, hp]
      rw [if_pos hs, if_neg hge]
      cases hh : rgbToHexOpt paint.color with
      | none => simp
      | some hex => simp
    · intro co hco
      constructor
      · simp only [rgbToHex]
        split_ifs with hcond
        · exact iff_of_true rfl hcond
        · exact iff_of_false (by simp) hcond
      · intro hmiss hex hh
        exact rgbToHex_missing_ne_black hmiss hh

/-- A fully populated solid red paint, used to witness the amended C3 theorem. -/
def solidRedPaint : Paint :=
  { type := "SOLID", color := some { r := some 1, g := some 0, b := some 0 } }

/-- A fully populated solid red paint style, used to witness the amended C3
    theorem. -/
def solidRedStyle : RawPaintStyle := { name := "Red", paints := [solidRedPaint] }

/-- Witness for the amended C3 theorem at a concrete solid style. -/
theorem solidColor_normalization_witness :
    (effOpacity solidRedPaint.opacity < 1 →
      ∃ rec, processColorStyle (fun _ _ => 0) solidRedStyle = some rec ∧
        rec.value = rgbaString (figmaRgbaOpt solidRedPaint.color).r
          (figmaRgbaOpt solidRedPaint.color).g
          (figmaRgbaOpt solidRedPaint.color).b
          (effOpacity solidRedPaint.opacity)) ∧
    (¬ effOpacity solidRedPaint.opacity < 1 →
      ((processColorStyle (fun _ _ => 0) solidRedStyle = none ↔
          rgbToHexOpt solidRedPaint.color = none) ∧
       (∀ co, solidRedPaint.color = some co →
         ((rgbToHex co = none ↔
            (toHexChannel co.r = "00" ∧ toHexChannel co.g = "00" ∧ toHexChannel co.b = "00" ∧
             (co.r = none ∨ co.g = none ∨ co.b = none))) ∧
          ((co.r = none ∨ co.g = none ∨ co.b = none) →
            ∀ hex, rgbToHex co = some hex → hex ≠ "#000000"))))) :=
  solidColor_normalization (fun _ _ => 0) solidRedStyle solidRedPaint rfl rfl

/-! ### JS values -/

/-- A JS value as it appears in variable mode maps and record fields. -/
inductive JSValue where
  | undef : JSValue
  | nullv : JSValue
  | num : ℚ → JSValue
  | str : String → JSValue
  | bool : Bool → JSValue
  | color : ColorObj → JSValue
  | alias : String → JSValue
deriving DecidableEq, Repr

/-! ### Text styles -/

/-- A raw `fontName` object. -/
structure FontName where
  family : Option String := none
  style : Option String := none
deriving DecidableEq, Repr

/-- A unit-tagged value (`lineHeight`, `letterSpacing`). -/
structure UnitValue where
  unit : String
  value : ℚ
deriving DecidableEq, Repr

/-- A raw text style as fetched from the host. -/
structure RawTextStyle where
  name : String
  description : Option String := none
  fontName : Option FontName := none
  fontSize : Option ℚ := none
  lineHeight : Option UnitValue := none
  letterSpacing : Option UnitValue := none
  textCase : Option String := none
  textDecoration : Option String := none
deriving DecidableEq, Repr

/-- Does the list start with the first argument? -/
def startsWithList : List Char → List Char → Bool
  | [], _ => true
  | _ :: _, [] => false
  | a :: pre, b :: l => a = b && startsWithList pre l

/-- JS `String.prototype.includes` on character lists. -/
def containsList (l sub : List Char) : Bool :=
  match l with
  | [] => sub.isEmpty
  | c :: rest => startsWithList sub (c :: rest) || containsList rest sub

/-- JS `String.prototype.includes`. -/
def jsIncludes (s sub : String) : Bool := containsList s.data sub.data

/-- A decimal digit. -/
def isDigitChar (c : Char) : Bool := 48 ≤ c.toNat && c.toNat ≤ 57

/-- First match of the regex `(\d{3})`: the leftmost window of three
    consecutive digits. -/
def find3Digits : List Char → Option String
  | a :: b :: c :: rest =>
    if isDigitChar a && isDigitChar b && isDigitChar c then some (String.mk [a, b, c])
    else find3Digits (b :: c :: rest)
  | _ => none

/-- The font-weight keyword table, in source (insertion) order. -/
def weightMap : List (String × String) :=
  [("thin", "100"), ("extralight", "200"), ("light", "300"), ("regular", "400"),
   ("normal", "400"), ("medium", "500"), ("semibold", "600"), ("bold", "700"),
   ("extrabold", "800"), ("black", "900")]

/-- `parseFontWeight` from src/code.js: first keyword whose name occurs in the
    lower-cased style string, else any embedded three-digit number, else 400. -/
def parseFontWeight (fontStyle : String) : String :=
  let style := jsToLowerStr fontStyle
  match weightMap.find? (fun p => jsIncludes style p.1) with
  | some p => p.2
  | none =>
    match find3Digits style.data with
    | some s => s
    | none => "400"

/-- JS `replace('_', '-')`: first occurrence only. -/
def replaceFirstUnderscore : List Char → List Char
  | [] => []
  | c :: rest => if c = '_' then '-' :: rest else c :: replaceFirstUnderscore rest

/-- `tag.toLowerCase().replace('_', '-')`. -/
def kebabTag (s : String) : String := String.mk (replaceFirstUnderscore (s.data.map jsToLower))

/-- The record built by `processTextStyle`.  The function always returns a
    record: text styles have no skip condition. -/
structure TextStyleRecord where
  name : String
  token : String
  type : String
  description : Option String := none
  fontFamily : Option String := none
  fontWeight : Option String := none
  fontStyle : Option String := none
  fontSize : Option String := none
  lineHeight : Option JSValue := none
  letterSpacing : Option String := none
  textTransform : Option String := none
  textDecoration : Option String := none
deriving DecidableEq, Repr

/-- `processTextStyle` from src/code.js: builds the base record and adds each
    typographic field only when present and truthy. -/
def processTextStyle (style : RawTextStyle) : TextStyleRecord :=
  { name := style.name
    token := generateToken style.name
    type := "text"
    description := cleanDescription style.description
    fontFamily :=
      match style.fontName with
      | some fn =>
        match fn.family with
        | some fam => if fam = "" then none else some fam
        | none => none
      | none => none
    fontWeight :=
      match style.fontName with
      | some fn =>
        match fn.style with
        | some st => if st = "" then none else some (parseFontWeight st)
        | none => none
      | none => none
    fontStyle :=
      match style.fontName with
      | some fn =>
        match fn.style with
        | some st =>
          if st ≠ "" ∧ jsIncludes (jsToLowerStr st) ("italic") = true then some ("italic")
          else none
        | none => none
      | none => none
    fontSize :=
      match style.fontSize with
      | some v => if v = 0 then none else some (qToString v ++ "px")
      | none => none
    lineHeight :=
      match style.lineHeight with
      | some lh =>
        if lh.unit = "PIXELS" then some (JSValue.str (qToString lh.value ++ "px"))
        else if lh.unit = "PERCENT" then some (JSValue.num (lh.value / 100))
        else none
      | none => none
    letterSpacing :=
      match style.letterSpacing with
      | some ls =>
        if ls.unit = "PIXELS" then some (qToString ls.value ++ "px")
        else if ls.unit = "PERCENT" then some (qToString ls.value ++ "%")
        else none
      | none => none
    textTransform :=
      match style.textCase with
      | some tc => if tc ≠ "" ∧ tc ≠ "ORIGINAL" then some (kebabTag tc) else none
      | none => none
    textDecoration :=
      match style.textDecoration with
      | some td => if td ≠ "" ∧ td ≠ "NONE" then some (kebabTag td) else none
      | none => none }

/-! ### Effect styles -/

/-- A raw effect: type tag plus optional shadow geometry and color.  The
    `offset` object may itself have missing `x`/`y`. -/
structure EffectObj where
  type : String
  offset : Option (Option ℚ × Option ℚ) := none
  radius : Option ℚ := none
  spread : Option ℚ := none
  color : Option ColorObj := none
deriving DecidableEq, Repr

/-- A raw effect style as fetched from the host. -/
structure RawEffectStyle where
  name : String
  description : Option String := none
  effects : List EffectObj
deriving DecidableEq, Repr

/-- DROP_SHADOW or INNER_SHADOW. -/
def isShadowType (e : EffectObj) : Bool := e.type = "DROP_SHADOW" || e.type = "INNER_SHADOW"

/-- One shadow's fragment in `generateEffectCSS`; `none` when the effect does
    not contribute (non-shadow type, missing color, or invalid hex). -/
def shadowEntry (e : EffectObj) : Option String :=
  if isShadowType e then
    match e.color with
    | none => none
    | some c =>
      let inset := if e.type = "INNER_SHADOW" then "inset " else ""
      let opacity := effOpacity c.a
      let colorValue? : Option String :=
        if opacity < 1 then
          let rgba := figmaRgbaToStandardRgba c
          some (rgbaString rgba.r rgba.g rgba.b opacity)
        else rgbToHex c
      colorValue?.map (fun cv =>
        inset ++ qToString ((e.offset.bind Prod.fst).getD 0) ++ "px " ++
        qToString ((e.offset.bind Prod.snd).getD 0) ++ "px " ++
        qToString (e.radius.getD 0) ++ "px " ++
        qToString (e.spread.getD 0) ++ "px " ++ cv)
  else none

/-- `generateEffectCSS` from src/code.js: only DROP_SHADOW and INNER_SHADOW
    entries with usable colors contribute. -/
def generateEffectCSS (effects : List EffectObj) : String :=
  let shadows := effects.filterMap shadowEntry
  if shadows.length > 0 then "box-shadow: " ++ String.intercalate (", ") shadows else ""

/-- One entry of the structured `effects` array in an effect style record. -/
structure CleanEffect where
  type : String
  x : Option ℚ := none
  y : Option ℚ := none
  blur : Option ℚ := none
  spread : Option ℚ := none
  color : Option String := none
deriving DecidableEq, Repr

/-- The per-effect mapping that builds the structured `effects` array. -/
def cleanEffect (e : EffectObj) : CleanEffect :=
  if isShadowType e then
    { type := kebabTag e.type
      x := some ((e.offset.bind Prod.fst).getD 0)
      y := some ((e.offset.bind Prod.snd).getD 0)
      blur := some (e.radius.getD 0)
      spread := some (e.spread.getD 0)
      color :=
        match e.color with
        | none => none
        | some c =>
          let opacity := effOpacity c.a
          if opacity < 1 then
            let rgba := figmaRgbaToStandardRgba c
            some (rgbaString rgba.r rgba.g rgba.b opacity)
          else some ((rgbToHex c).getD ("transparent")) }
  else { type := kebabTag e.type }

/-- The record built by `processEffectStyle`. -/
structure EffectStyleRecord where
  name : String
  token : String
  type : String
  value : String
  description : Option String := none
  effects : List CleanEffect
deriving DecidableEq, Repr

/-- `processEffectStyle` from src/code.js: skip when the effect list is empty
    or when the generated CSS is empty/whitespace-only. -/
def processEffectStyle (style : RawEffectStyle) : Option EffectStyleRecord :=
  if style.effects = [] then none
  else
    let cssValue := generateEffectCSS style.effects
    if cssValue = "" ∨ jsTrim cssValue = "" then none
    else some
      { name := style.name
        token := generateToken style.name
        type := "effect"
        value := cssValue
        description := cleanDescription style.description
        effects := style.effects.map cleanEffect }

/-! ### Grid styles -/

/-- A raw layout grid. -/
structure GridObj where
  pattern : String
  count : Option ℚ := none
  gutterSize : Option ℚ := none
  offset : Option ℚ := none
deriving DecidableEq, Repr

/-- A raw grid style as fetched from the host. -/
structure RawGridStyle where
  name : String
  description : Option String := none
  layoutGrids : List GridObj
deriving DecidableEq, Repr

/-- JS `x || d` for an optional number (`0` is falsy). -/
def jsNumOr (v : Option ℚ) (d : ℚ) : ℚ :=
  match v with
  | some q => if q = 0 then d else q
  | none => d

/-- One structured grid entry. -/
structure GridOut where
  pattern : String
  count : ℚ
  gutter : ℚ
  margin : ℚ
deriving DecidableEq, Repr

/-- The record built by `processGridStyle`. -/
structure GridStyleRecord where
  name : String
  token : String
  type : String
  description : Option String := none
  grids : List GridOut
deriving DecidableEq, Repr

/-- `processGridStyle` from src/code.js: skip styles with no layout grids. -/
def processGridStyle (style : RawGridStyle) : Option GridStyleRecord :=
  if style.layoutGrids = [] then none
  else some
    { name := style.name
      token := generateToken style.name
      type := "grid"
      description := cleanDescription style.description
      grids := style.layoutGrids.map (fun g =>
        { pattern := jsToLowerStr g.pattern
          count := jsNumOr g.count 12
          gutter := jsNumOr g.gutterSize 20
          margin := jsNumOr g.offset 0 }) }

/-! ### Claim C5: effect style skip condition -/

theorem shadowEntry_none_of_not_shadow {e : EffectObj} (h : isShadowType e = false) :
    shadowEntry e = none := by
  simp [shadowEntry, h]

theorem filterMap_shadowEntry_filter : ∀ (l : List EffectObj),
    l.filterMap shadowEntry = (l.filter isShadowType).filterMap shadowEntry := by
  intro l
  induction l with
  | nil => rfl
  | cons e rest ih =>
    by_cases h : isShadowType e = true
    · rw [List.filter_cons_of_pos h, List.filterMap_cons, List.filterMap_cons, ih]
    · have hf : isShadowType e = false := by
        cases he : isShadowType e
        · rfl
        · exact absurd he h
      rw [List.filter_cons_of_neg (by simp [hf]), List.filterMap_cons,
        shadowEntry_none_of_not_shadow hf, ih]

theorem mem_dropWhile_of_not {p : Char → Bool} {c : Char} (hpc : p c = false) :
    ∀ {l : List Char}, c ∈ l → c ∈ l.dropWhile p := by
  intro l
  induction l with
  | nil => intro h; cases h
  | cons a rest ih =>
    intro h
    by_cases hpa : p a = true
    · rw [List.dropWhile_cons, if_pos hpa]
      rcases List.mem_cons.mp h with h1 | h2
      · subst h1; rw [hpa] at hpc; cases hpc
      · exact ih h2
    · rw [List.dropWhile_cons, if_neg hpa]
      exact h

theorem trimChars_ne_nil {l : List Char} {c : Char} (hc : c ∈ l) (hw : jsWS c = false) :
    ((l.dropWhile jsWS).reverse.dropWhile jsWS).reverse ≠ [] := by
  intro h
  have h1 : c ∈ l.dropWhile jsWS := mem_dropWhile_of_not hw hc
  have h2 : c ∈ (l.dropWhile jsWS).reverse := List.mem_reverse.mpr h1
  have h3 : c ∈ ((l.dropWhile jsWS).reverse).dropWhile jsWS := mem_dropWhile_of_not hw h2
  have h4 : c ∈ (((l.dropWhile jsWS).reverse).dropWhile jsWS).reverse := List.mem_reverse.mpr h3
  rw [h] at h4
  cases h4

theorem jsTrim_boxShadow (s : String) : jsTrim ("box-shadow: " ++ s) ≠ "" := by
  intro h
  have hb : 'b' ∈ ("box-shadow: " ++ s).data := by
    rw [String.data_append]
    exact List.mem_append.mpr (Or.inl (by decide))
  refine trimChars_ne_nil hb (by decide) ?_
  exact congrArg String.data h

theorem generateEffectCSS_empty_or (l : List EffectObj) :
    generateEffectCSS l = "" ∨ ∃ s, generateEffectCSS l = "box-shadow: " ++ s := by
  unfold generateEffectCSS
  by_cases h : (l.filterMap shadowEntry).length > 0
  · rw [if_pos h]; exact Or.inr ⟨_, rfl⟩
  · rw [if_neg h]; exact Or.inl rfl

/-- The C5 counterexample style: a non-empty effect list containing only a
    LAYER_BLUR — no shadow, so the generated CSS is empty. -/
def blurOnlyStyle : RawEffectStyle :=
  { name := "Soft Blur", effects := [{ type := "LAYER_BLUR", radius := some 4 }] }

/-- C5 counterexample: a style with a non-empty effect list consisting of one
    blur effect yields no StyleRecord — `processEffectStyle` returns `none`,
    contradicting the claim that exactly the styles with an empty effect list
    are skipped and that a blur-only style still yields a record. -/
theorem blurOnly_skipped_cx :
    blurOnlyStyle.effects ≠ [] ∧ processEffectStyle blurOnlyStyle = none := by
  exact ⟨by decide, by with_unfolding_all decide⟩

/-- C5 amended: the extractor skips exactly the styles whose effect list is
    empty or whose effect list generates an empty `box-shadow` CSS (in
    particular blur-only styles); when a record is produced, its value is the
    generated CSS, its structured `effects` array lists every effect (shadows
    and non-shadows alike), and only DROP_SHADOW/INNER_SHADOW entries
    contribute to the CSS. -/
theorem effectStyle_skip_amended (style : RawEffectStyle) :
    (processEffectStyle style = none ↔
      style.effects = [] ∨ generateEffectCSS style.effects = "") ∧
    (∀ rec, processEffectStyle style = some rec →
      rec.value = generateEffectCSS style.effects ∧
      rec.effects = style.effects.map cleanEffect) ∧
    generateEffectCSS style.effects = generateEffectCSS (style.effects.filter isShadowType) := by
  refine ⟨⟨?_, ?_⟩, ?_, ?_⟩
  · intro h
    simp only [processEffectStyle] at h
    by_cases he : style.effects = []
    · exact Or.inl he
    · rw [if_neg he] at h
      by_cases hcss : generateEffectCSS style.effects = "" ∨
          jsTrim (generateEffectCSS style.effects) = ""
      · rcases hcss with h1 | h1
        · exact Or.inr h1
        · rcases generateEffectCSS_empty_or style.effects with h2 | ⟨s, h2⟩
          · exact Or.inr h2
          · rw [h2] at h1
            exact absurd h1 (jsTrim_boxShadow s)
      · rw [if_neg hcss] at h
        cases h
  · intro h
    simp only [processEffectStyle]
    rcases h with h | h
    · rw [if_pos h]
    · by_cases he : style.effects = []
      · rw [if_pos he]
      · rw [if_neg he, if_pos (Or.inl h)]
  · intro rec h
    simp only [processEffectStyle] at h
    by_cases he : style.effects = []
    · rw [if_pos he] at h; cases h
    · rw [if_neg he] at h
      by_cases hcss : generateEffectCSS style.effects = "" ∨
          jsTrim (generateEffectCSS style.effects) = ""
      · rw [if_pos hcss] at h; cases h
      · rw [if_neg hcss] at h
        have h2 := Option.some.inj h
        subst h2
        exact ⟨rfl, rfl⟩
  · unfold generateEffectCSS
    rw [filterMap_shadowEntry_filter style.effects]

/-- The witness style for C5: one DROP_SHADOW with a semi-transparent black
    color. -/
def shadowStyle : RawEffectStyle :=
  { name := "Card Shadow"
    effects := [{ type := "DROP_SHADOW", offset := some (some 2, some 4), radius := some 8,
                  spread := some 0,
                  color := some { r := some 0, g := some 0, b := some 0, a := some (1 / 2) } }] }

/-- Witness for the amended C5 theorem: the shadow style is not skipped. -/
theorem effectStyle_skip_amended_witness : processEffectStyle shadowStyle ≠ none := by
  intro h
  have h2 := (effectStyle_skip_amended shadowStyle).1.mp h
  rcases h2 with h2 | h2
  · revert h2; with_unfolding_all decide
  · revert h2; with_unfolding_all decide

/-! ### Claim C9: text styles have no skip condition -/

/-- C9: every raw text style — even one with every typographic field absent —
    yields a record carrying at least `name`, `token` and type `"text"`
    (`processTextStyle` is total, with no `null` branch), while paint, effect
    and grid styles each have inputs on which their extractor returns `none`. -/
theorem processTextStyle_total (style : RawTextStyle) :
    (processTextStyle style).name = style.name ∧
    (processTextStyle style).token = generateToken style.name ∧
    (processTextStyle style).type = "text" ∧
    (∃ p : RawPaintStyle, processColorStyle (fun _ _ => 0) p = none) ∧
    (∃ e : RawEffectStyle, processEffectStyle e = none) ∧
    (∃ g : RawGridStyle, processGridStyle g = none) :=
  ⟨rfl, rfl, rfl, ⟨{ name := "", paints := [] }, rfl⟩,
    ⟨{ name := "", effects := [] }, rfl⟩, ⟨{ name := "", layoutGrids := [] }, rfl⟩⟩

/-! ### Variables -/

/-- A mode entry of a raw variable collection. -/
structure RawMode where
  modeId : Option String := none
  id : Option String := none
  name : Option String := none
deriving DecidableEq, Repr

/-- A raw variable collection as fetched from the host. -/
structure RawCollection where
  id : String
  name : Option String := none
  modes : List RawMode := []
deriving DecidableEq, Repr

/-- A raw variable as fetched from the host. -/
structure RawVariable where
  id : String
  name : String
  description : Option String := none
  variableCollectionId : String
  resolvedType : String
  valuesByMode : List (String × JSValue) := []
deriving DecidableEq, Repr

/-- Lookup in the `collectionMap` built by `Map.set` over the fetched list:
    the last collection with a given id wins. -/
def collectionMapGet (colls : List RawCollection) (cid : String) : Option RawCollection :=
  colls.reverse.find? (fun c => c.id = cid)

/-- JS object property lookup on an insertion-ordered association list. -/
def lookupAssoc {α : Type} (l : List (String × α)) (k : String) : Option α :=
  (l.find? (fun p => p.1 = k)).map Prod.snd

/-- Value of a decimal digit list. -/
def digitsToNat (l : List Char) : ℕ := l.foldl (fun a c => a * 10 + (c.toNat - 48)) 0

/-- JS `parseFloat` on a string: optional leading whitespace and sign, decimal
    digits with optional fraction, optional exponent; `none` when the result
    is `NaN` (the `Infinity` literals are outside the model). -/
def jsParseFloat (s : String) : Option ℚ :=
  let l0 := s.data.dropWhile jsWS
  let sl : ℚ × List Char :=
    match l0 with
    | c :: r => if c = '-' then (-1, r) else if c = '+' then (1, r) else (1, l0)
    | [] => (1, l0)
  let ip := sl.2.takeWhile isDigitChar
  let l1 := sl.2.dropWhile isDigitChar
  let fp : List Char :=
    match l1 with
    | '.' :: r => r.takeWhile isDigitChar
    | _ => []
  let l2 : List Char :=
    match l1 with
    | '.' :: r => r.dropWhile isDigitChar
    | _ => l1
  if ip = [] ∧ fp = [] then none
  else
    let base : ℚ := (digitsToNat ip : ℚ) + (digitsToNat fp : ℚ) / ((10 : ℚ) ^ fp.length)
    let ex : ℤ :=
      match l2 with
      | c :: r =>
        if c = 'e' ∨ c = 'E' then
          let se : ℤ × List Char :=
            match r with
            | c2 :: r2 => if c2 = '-' then (-1, r2) else if c2 = '+' then (1, r2) else (1, r)
            | [] => (1, r)
          let ed := se.2.takeWhile isDigitChar
          if ed = [] then 0 else se.1 * (digitsToNat ed : ℤ)
        else 0
      | [] => 0
    some (sl.1 * base * ((10 : ℚ) ^ ex))

/-- Alias resolution for one mode value (the `VARIABLE_ALIAS` branch of
    `processVariable`): look the target up by id in the live variable set; on
    failure skip the mode (`none`); when the target lacks the mode, fall back
    to its first mode's value (or `undefined` when it has no modes). -/
def resolveAlias (allVars : List RawVariable) (modeId : String) (raw : JSValue) :
    Option JSValue :=
  match raw with
  | JSValue.alias aid =>
    match allVars.find? (fun w => w.id = aid) with
    | none => none
    | some av =>
      match lookupAssoc av.valuesByMode modeId with
      | some v => some v
      | none => some (((av.valuesByMode.head?).map Prod.snd).getD JSValue.undef)
  | v => some v

/-- The object seen by the COLOR branch: any JS object passes the
    `typeof actualValue === 'object'` test; a non-color object (e.g. an alias
    object from a chained alias) reads as a color with all channels missing. -/
def asColorObj : JSValue → Option ColorObj
  | JSValue.color c => some c
  | JSValue.alias _ => some {}
  | _ => none

/-- Type coercion of one resolved mode value (`switch (variable.resolvedType)`
    in `processVariable`); `none` means the mode produced no valid value. -/
def coerceValue (resolvedType : String) (actualValue : JSValue) : Option JSValue :=
  if resolvedType = "COLOR" then
    match asColorObj actualValue with
    | none => none
    | some obj =>
      let rgba := figmaRgbaToStandardRgba obj
      if rgba.a < 1 then some (JSValue.str (rgbaString rgba.r rgba.g rgba.b rgba.a))
      else
        match rgbToHex { r := obj.r, g := obj.g, b := obj.b } with
        | some hex => some (JSValue.str hex)
        | none => none
  else if resolvedType = "FLOAT" then
    match actualValue with
    | JSValue.num q => some (JSValue.num q)
    | JSValue.str s =>
      match jsParseFloat s with
      | some q => some (JSValue.num q)
      | none => none
    | _ => none
  else if resolvedType = "STRING" then
    match actualValue with
    | JSValue.undef => none
    | JSValue.nullv => none
    | JSValue.str s => if s = "" then none else some (JSValue.str s)
    | v => some v
  else
    match actualValue with
    | JSValue.undef => none
    | JSValue.nullv => none
    | v => some v

/-- The full per-mode pipeline: resolve aliases, then coerce by type. -/
def cleanModeValue (allVars : List RawVariable) (resolvedType : String) (modeId : String)
    (raw : JSValue) : Option JSValue :=
  match resolveAlias allVars modeId raw with
  | none => none
  | some actual => coerceValue resolvedType actual

/-- Mode display name resolution: find the mode in the owning collection by
    `id` or `modeId`; a missing collection, missing mode, or falsy mode name
    synthesizes `"Mode {modeId}"`. -/
def modeNameFor (collection : Option RawCollection) (modeId : String) : String :=
  let mode : Option RawMode :=
    match collection with
    | some c => c.modes.find? (fun m => m.id = some modeId ∨ m.modeId = some modeId)
    | none => none
  match mode with
  | some m =>
    match m.name with
    | some nm => if nm = "" then "Mode " ++ modeId else nm
    | none => "Mode " ++ modeId
  | none => "Mode " ++ modeId

/-- JS object assignment `obj[k] = v` on an insertion-ordered association
    list: overwrite in place, or append a new key. -/
def setAssoc {α : Type} (l : List (String × α)) (k : String) (v : α) : List (String × α) :=
  if l.any (fun p => p.1 = k) then l.map (fun p => if p.1 = k then (k, v) else p)
  else l ++ [(k, v)]

/-- One step of the mode-conversion fold in `processVariable`: the state is
    the `convertedValues` object and the `hasValidValue` flag. -/
def convertStep (allVars : List RawVariable) (collection : Option RawCollection)
    (resolvedType : String) (acc : List (String × JSValue) × Bool) (p : String × JSValue) :
    List (String × JSValue) × Bool :=
  match cleanModeValue allVars resolvedType p.1 p.2 with
  | some cv => (setAssoc acc.1 (modeNameFor collection p.1) cv, true)
  | none => acc

/-- The `convertedValues` object and `hasValidValue` flag accumulated over all
    modes of a variable. -/
def convertedValuesOf (allVars : List RawVariable) (colls : List RawCollection)
    (v : RawVariable) : List (String × JSValue) × Bool :=
  v.valuesByMode.foldl
    (convertStep allVars (collectionMapGet colls v.variableCollectionId) v.resolvedType)
    ([], false)

/-- The record built by `processVariable`. -/
structure VariableRecord where
  name : String
  token : String
  type : String
  value : JSValue
  values : Option (List (String × JSValue)) := none
  description : Option String := none
deriving DecidableEq, Repr

/-- `processVariable` from src/code.js. -/
def processVariable (allVars : List RawVariable) (colls : List RawCollection)
    (v : RawVariable) : Option VariableRecord :=
  let cv := convertedValuesOf allVars colls v
  if ¬cv.2 = true ∨ cv.1 = [] then none
  else some
    { name := v.name
      token := generateToken v.name
      type := jsToLowerStr v.resolvedType
      value := ((cv.1.head?).map Prod.snd).getD JSValue.undef
      values :=
        if cv.1.length > 1 ∨ cv.1.any (fun p => ¬(p.1.startsWith ("Mode ") = true)) then some cv.1
        else none
      description := cleanDescription v.description }

/-! ### Claim C4: record emitted iff some mode is valid -/

theorem setAssoc_ne_nil {α : Type} (l : List (String × α)) (k : String) (v : α) :
    setAssoc l k v ≠ [] := by
  unfold setAssoc
  by_cases h : l.any (fun p => p.1 = k) = true
  · rw [if_pos h]
    intro hm
    rcases List.any_eq_true.mp h with ⟨p, hp, _⟩
    have : (if p.1 = k then (k, v) else p) ∈ l.map (fun p => if p.1 = k then (k, v) else p) :=
      List.mem_map_of_mem _ hp
    rw [hm] at this
    cases this
  · rw [if_neg h]
    intro hm
    cases List.append_eq_nil.mp hm with
    | intro h1 h2 => cases h2

theorem foldl_convert_snd (a : List RawVariable) (c : Option RawCollection) (rt : String) :
    ∀ (l : List (String × JSValue)) (acc : List (String × JSValue) × Bool),
      (l.foldl (convertStep a c rt) acc).2 =
        (acc.2 || l.any (fun p => (cleanModeValue a rt p.1 p.2).isSome)) := by
  intro l
  induction l with
  | nil => intro acc; simp
  | cons p rest ih =>
    intro acc
    rw [List.foldl_cons, ih]
    cases h : cleanModeValue a rt p.1 p.2 with
    | none => simp [convertStep, h]
    | some cv => simp [convertStep, h]

theorem foldl_convert_fst_ne (a : List RawVariable) (c : Option RawCollection) (rt : String) :
    ∀ (l : List (String × JSValue)) (acc : List (String × JSValue) × Bool),
      (acc.2 = true → acc.1 ≠ []) →
      ((l.foldl (convertStep a c rt) acc).2 = true → (l.foldl (convertStep a c rt) acc).1 ≠ []) := by
  intro l
  induction l with
  | nil => intro acc h; exact h
  | cons p rest ih =>
    intro acc h
    rw [List.foldl_cons]
    apply ih
    cases hc : cleanModeValue a rt p.1 p.2 with
    | none => simp only [convertStep, hc]; exact h
    | some cv =>
      simp only [convertStep, hc]
      intro _
      exact setAssoc_ne_nil _ _ _

/-- C4: `processVariable` emits a record iff at least one mode produced a
    valid value after alias resolution and type coercion; in particular a
    variable whose only mode is an alias to a nonexistent variable id yields
    no record. -/
theorem variableRecord_iff_validMode (allVars : List RawVariable)
    (colls : List RawCollection) (v : RawVariable) :
    ((processVariable allVars colls v).isSome = true ↔
      v.valuesByMode.any
        (fun p => (cleanModeValue allVars v.resolvedType p.1 p.2).isSome) = true) ∧
    (∀ modeId aid, v.valuesByMode = [(modeId, JSValue.alias aid)] →
      (∀ w ∈ allVars, w.id ≠ aid) → processVariable allVars colls v = none) := by
  have hsnd : (convertedValuesOf allVars colls v).2 =
      v.valuesByMode.any (fun p => (cleanModeValue allVars v.resolvedType p.1 p.2).isSome) := by
    unfold convertedValuesOf
    rw [foldl_convert_snd]
    simp
  constructor
  · constructor
    · intro h
      simp only [processVariable] at h
      by_cases hg : ¬(convertedValuesOf allVars colls v).2 = true ∨
          (convertedValuesOf allVars colls v).1 = []
      · rw [if_pos hg] at h; cases h
      · push_neg at hg
        rw [← hsnd]
        exact hg.1
    · intro h
      have h2 : (convertedValuesOf allVars colls v).2 = true := by rw [hsnd]; exact h
      have h1 : (convertedValuesOf allVars colls v).1 ≠ [] := by
        unfold convertedValuesOf at h2 ⊢
        exact foldl_convert_fst_ne _ _ _ _ _ (fun hfalse => by cases hfalse) h2
      simp only [processVariable]
      rw [if_neg]
      · rfl
      · push_neg
        exact ⟨h2, h1⟩
  · intro modeId aid hv hno
    have hfind : allVars.find? (fun w => w.id = aid) = none := by
      rw [List.find?_eq_none]
      intro w hw
      simp only [decide_eq_true_eq]
      exact hno w hw
    have hclean : cleanModeValue allVars v.resolvedType modeId (JSValue.alias aid) = none := by
      simp only [cleanModeValue, resolveAlias, hfind]
    simp only [processVariable]
    rw [if_pos]
    left
    intro hsnd2
    rw [hsnd] at hsnd2
    rw [hv] at hsnd2
    simp only [List.any_cons, List.any_nil, Bool.or_false] at hsnd2
    rw [hclean] at hsnd2
    cases hsnd2

/-- The C4 witness variable: its only mode is an alias to an id that no
    fetched variable carries. -/
def aliasOnlyVar : RawVariable :=
  { id := "v1", name := "broken", variableCollectionId := "c", resolvedType := "COLOR"
    valuesByMode := [("m1", JSValue.alias ("missing"))] }

/-- Witness for C4: the alias-to-nowhere variable yields no record. -/
theorem variableRecord_iff_validMode_witness :
    processVariable [aliasOnlyVar] [] aliasOnlyVar = none :=
  (variableRecord_iff_validMode [aliasOnlyVar] [] aliasOnlyVar).2 "m1" "missing" rfl
    (by decide)

/-! ### Export orchestrator -/

/-- A normalized mode entry in an output collection. -/
structure ModeOut where
  id : Option String
  name : String
deriving DecidableEq, Repr

/-- An output collection: id, normalized modes, and the four type buckets. -/
structure CollOut where
  id : String
  modes : List ModeOut
  colors : List VariableRecord := []
  numbers : List VariableRecord := []
  strings : List VariableRecord := []
  booleans : List VariableRecord := []
deriving DecidableEq, Repr

/-- `mode.modeId || mode.id` (the empty string is falsy). -/
def modeIdOr (m : RawMode) : Option String :=
  match m.modeId with
  | some s => if s = "" then m.id else some s
  | none => m.id

/-- Text interpolation of a possibly-missing string: JS templates render a
    missing value as `undefined`. -/
def jsTemplate (o : Option String) : String :=
  match o with
  | some s => s
  | none => "undefined"

/-- The normalized mode object built by the orchestrator:
    `{id: mode.modeId || mode.id, name: mode.name || 'Mode ...'}`. -/
def normMode (m : RawMode) : ModeOut :=
  { id := modeIdOr m
    name :=
      match m.name with
      | some nm => if nm = "" then "Mode " ++ jsTemplate (modeIdOr m) else nm
      | none => "Mode " ++ jsTemplate (modeIdOr m) }

/-- The collection name a variable is grouped under:
    `(collection && collection.name) ? collection.name : 'Other'`. -/
def collectionNameOf (colls : List RawCollection) (cid : String) : String :=
  match collectionMapGet colls cid with
  | some c =>
    match c.name with
    | some n => if n = "" then "Other" else n
    | none => "Other"
  | none => "Other"

/-- A freshly created output collection entry (the `!data.collections[name]`
    branch of the variable loop). -/
def freshCollOut (cid : String) (collection : Option RawCollection) : CollOut :=
  { id := cid
    modes :=
      match collection with
      | some c => c.modes.map normMode
      | none => [] }

/-- One step of the collection-initialization loop. -/
def initStep (acc : List (String × CollOut)) (c : RawCollection) : List (String × CollOut) :=
  match c.name with
  | some n =>
    if n = "" then acc
    else setAssoc acc n { id := c.id, modes := c.modes.map normMode }
  | none => acc

/-- The initial `data.collections` object: one entry per truthy-named fetched
    collection. -/
def initCollections (colls : List RawCollection) : List (String × CollOut) :=
  colls.foldl initStep []

/-- The type-bucket push (`switch (varData.type)`). -/
def addToBucket (co : CollOut) (rec : VariableRecord) : CollOut :=
  if rec.type = "color" then { co with colors := co.colors ++ [rec] }
  else if rec.type = "float" then { co with numbers := co.numbers ++ [rec] }
  else if rec.type = "string" then { co with strings := co.strings ++ [rec] }
  else if rec.type = "boolean" then { co with booleans := co.booleans ++ [rec] }
  else co

/-- The bucket list for a given type tag. -/
def bucketOf (co : CollOut) (t : String) : List VariableRecord :=
  if t = "color" then co.colors
  else if t = "float" then co.numbers
  else if t = "string" then co.strings
  else if t = "boolean" then co.booleans
  else []

/-- State of the variable loop: the `processedVariableNames` set and the
    `data.collections` object. -/
structure VarFoldState where
  processed : List String
  colls : List (String × CollOut)
deriving DecidableEq, Repr

/-- The duplicate-suppression key `"{collectionName}:{variable.name}"`. -/
def varKeyOf (colls : List RawCollection) (v : RawVariable) : String :=
  collectionNameOf colls v.variableCollectionId ++ ":" ++ v.name

/-- One iteration of the variable loop in `exportStylesAndVariables`:
    duplicate suppression, `processVariable`, collection creation on demand,
    and the type-bucket push. -/
def stepVariable (allVars : List RawVariable) (rawColls : List RawCollection)
    (st : VarFoldState) (v : RawVariable) : VarFoldState :=
  let collectionName := collectionNameOf rawColls v.variableCollectionId
  let key := collectionName ++ ":" ++ v.name
  if key ∈ st.processed then st
  else
    match processVariable allVars rawColls v with
    | none => st
    | some rec =>
      let colls1 :=
        if st.colls.any (fun p => p.1 = collectionName) then st.colls
        else st.colls ++
          [(collectionName,
            freshCollOut v.variableCollectionId
              (collectionMapGet rawColls v.variableCollectionId))]
      { processed := st.processed ++ [key]
        colls :=
          colls1.map (fun p => if p.1 = collectionName then (p.1, addToBucket p.2 rec) else p) }

/-- Sum of the four bucket sizes of an output collection. -/
def totalVars (co : CollOut) : ℕ :=
  co.colors.length + co.numbers.length + co.strings.length + co.booleans.length

/-- The styles part of the export document. -/
structure StylesOut where
  colors : List ColorStyleRecord
  textStyles : List TextStyleRecord
  effectStyles : List EffectStyleRecord
  gridStyles : List GridStyleRecord
deriving DecidableEq, Repr

/-- The metadata the orchestrator computes itself (export date, file key and
    file name come from the host environment and are outside the model). -/
structure ExportMetadata where
  collectionsFound : ℕ
  collectionsExported : ℕ
deriving DecidableEq, Repr

/-- The export document returned by a successful run. -/
structure ExportDocument where
  styles : StylesOut
  collections : List (String × CollOut)
  metadata : ExportMetadata
deriving DecidableEq, Repr

/-- The six raw record lists the initial fetch produces. -/
structure RawInputs where
  paintStyles : List RawPaintStyle := []
  textStyles : List RawTextStyle := []
  effectStyles : List RawEffectStyle := []
  gridStyles : List RawGridStyle := []
  «variables» : List RawVariable := []
  collections : List RawCollection := []
deriving DecidableEq, Repr

/-- The whole variable-processing loop. -/
def runVarFold (allVars : List RawVariable) (rawColls : List RawCollection)
    (vars : List RawVariable) (init : List (String × CollOut)) : VarFoldState :=
  vars.foldl (stepVariable allVars rawColls) { processed := [], colls := init }

/-- The processing phase of `exportStylesAndVariables` on successfully fetched
    inputs: style extraction, collection initialization, the variable loop with
    duplicate suppression, and empty-collection pruning. -/
def buildDocument (atan2deg : ℚ → ℚ → ℤ) (inputs : RawInputs) : ExportDocument :=
  let finalState :=
    runVarFold inputs.«variables» inputs.collections inputs.«variables»
      (initCollections inputs.collections)
  let pruned := finalState.colls.filter (fun p => ¬ totalVars p.2 = 0)
  { styles :=
      { colors := inputs.paintStyles.filterMap (processColorStyle atan2deg)
        textStyles := inputs.textStyles.map processTextStyle
        effectStyles := inputs.effectStyles.filterMap processEffectStyle
        gridStyles := inputs.gridStyles.filterMap processGridStyle }
    collections := pruned
    metadata :=
      { collectionsFound := inputs.collections.length
        collectionsExported := pruned.length } }

/-- Results of the six concurrent initial fetches (`Promise.all`). -/
structure FetchResults where
  paintStyles : Except String (List RawPaintStyle)
  textStyles : Except String (List RawTextStyle)
  effectStyles : Except String (List RawEffectStyle)
  gridStyles : Except String (List RawGridStyle)
  «variables» : Except String (List RawVariable)
  collections : Except String (List RawCollection)

/-- `Promise.all` over the six fetches: the joined inputs, or the first
    rejection. -/
def joinFetch (f : FetchResults) : Except String RawInputs :=
  match f.paintStyles, f.textStyles, f.effectStyles, f.gridStyles, f.«variables», f.collections with
  | Except.ok ps, Except.ok ts, Except.ok es, Except.ok gs, Except.ok vs, Except.ok cs =>
    Except.ok { paintStyles := ps, textStyles := ts, effectStyles := es, gridStyles := gs,
                «variables» := vs, collections := cs }
  | Except.error e, _, _, _, _, _ => Except.error e
  | _, Except.error e, _, _, _, _ => Except.error e
  | _, _, Except.error e, _, _, _ => Except.error e
  | _, _, _, Except.error e, _, _ => Except.error e
  | _, _, _, _, Except.error e, _ => Except.error e
  | _, _, _, _, _, Except.error e => Except.error e

/-- True when an `Except` is a rejection. -/
def exceptFailed {α : Type} : Except String α → Bool
  | Except.error _ => true
  | Except.ok _ => false

/-- The fixed message of the orchestrator's catch-all `throw`. -/
def exportFailedMessage : String :=
  "Failed to export styles and variables. Please ensure the file has loaded completely and try again."

/-- `exportStylesAndVariables` from src/code.js at the run boundary: the fetch
    join is the only fatal point (the catch replaces any fetch rejection with
    one fixed message); on success the document is always built and returned. -/
def exportStylesAndVariables (atan2deg : ℚ → ℚ → ℤ) (f : FetchResults) :
    Except String ExportDocument :=
  match joinFetch f with
  | Except.error _ => Except.error exportFailedMessage
  | Except.ok inputs => Except.ok (buildDocument atan2deg inputs)

/-! ### Claim C1: fatal errors come exactly from the fetch stage -/

/-- C1: a run fails iff one of the six initial fetches rejects; a failed run
    surfaces exactly the one fixed error message and no document (nothing
    partial); a run whose fetch join succeeds always returns the built
    document. -/
theorem exportRun_fatal_iff_fetchFailed (atan2deg : ℚ → ℚ → ℤ) (f : FetchResults) :
    (exceptFailed (joinFetch f) =
      (exceptFailed f.paintStyles || exceptFailed f.textStyles || exceptFailed f.effectStyles ||
       exceptFailed f.gridStyles || exceptFailed f.«variables» || exceptFailed f.collections)) ∧
    (exceptFailed (joinFetch f) = true →
      exportStylesAndVariables atan2deg f = Except.error exportFailedMessage) ∧
    (∀ inputs, joinFetch f = Except.ok inputs →
      exportStylesAndVariables atan2deg f = Except.ok (buildDocument atan2deg inputs)) := by
  refine ⟨?_, ?_, ?_⟩
  · obtain ⟨ps, ts, es, gs, vs, cs⟩ := f
    cases ps <;> cases ts <;> cases es <;> cases gs <;> cases vs <;> cases cs <;> rfl
  · intro h
    cases hj : joinFetch f with
    | error e => simp only [exportStylesAndVariables, hj]
    | ok inputs => rw [hj] at h; simp [exceptFailed] at h
  · intro inputs hj
    simp only [exportStylesAndVariables, hj]

/-- A fetch-stage failure: the variables query rejects. -/
def failedFetch : FetchResults :=
  { paintStyles := Except.ok [], textStyles := Except.ok [], effectStyles := Except.ok []
    gridStyles := Except.ok [], «variables» := Except.error ("network"), collections := Except.ok [] }

/-- Witness for C1 at a concrete failing fetch. -/
theorem exportRun_fatal_witness :
    exportStylesAndVariables (fun _ _ => 0) failedFetch = Except.error exportFailedMessage :=
  (exportRun_fatal_iff_fetchFailed (fun _ _ => 0) failedFetch).2.1 (by rfl)

/-! ### Claim C8: no empty collection survives pruning -/

/-- C8: every collection present in a built export document has at least one
    variable across its four type buckets — collections whose total is zero
    are removed before the document is returned. -/
theorem exported_collections_nonempty (atan2deg : ℚ → ℚ → ℤ) (inputs : RawInputs)
    (entry : String × CollOut) (h : entry ∈ (buildDocument atan2deg inputs).collections) :
    0 < totalVars entry.2 := by
  simp only [buildDocument] at h
  have h2 := (List.mem_filter.mp h).2
  simp only [decide_eq_true_eq] at h2
  exact Nat.pos_of_ne_zero h2

/-- The single orphan FLOAT variable used by several witnesses. -/
def orphanFloatVar : RawVariable :=
  { id := "v9", name := "gap", variableCollectionId := "zzz", resolvedType := "FLOAT"
    valuesByMode := [("m9", JSValue.num 5)] }

/-- Its record as produced by `processVariable`. -/
def gapRecord : VariableRecord :=
  { name := "gap", token := "gap", type := "float", value := JSValue.num 5 }

/-- Inputs with a single orphan variable and no collections. -/
def singleVarInputs : RawInputs := { «variables» := [orphanFloatVar] }

/-- The output entry the orphan ends up in. -/
def otherEntry : String × CollOut :=
  ("Other", { id := "zzz", modes := [], numbers := [gapRecord] })

/-- Witness for C8 at a concrete run: the surviving collection entry has a
    positive variable total. -/
theorem exported_collections_nonempty_witness : 0 < totalVars otherEntry.2 :=
  exported_collections_nonempty (fun _ _ => 0) singleVarInputs otherEntry
    (by with_unfolding_all decide)

/-! ### Claim C2: duplicate suppression -/

theorem stepVariable_processed (allVars : List RawVariable) (rawColls : List RawCollection)
    (st : VarFoldState) (v : RawVariable) (K : String) :
    K ∈ (stepVariable allVars rawColls st v).processed ↔
      K ∈ st.processed ∨
        (varKeyOf rawColls v = K ∧ processVariable allVars rawColls v ≠ none) := by
  simp only [stepVariable]
  by_cases hmem :
      (collectionNameOf rawColls v.variableCollectionId ++ ":" ++ v.name) ∈ st.processed
  · rw [if_pos hmem]
    constructor
    · exact Or.inl
    · rintro (h | ⟨hk, _⟩)
      · exact h
      · rw [← hk]
        exact hmem
  · rw [if_neg hmem]
    cases hp : processVariable allVars rawColls v with
    | none =>
      constructor
      · exact Or.inl
      · rintro (h | ⟨_, hpne⟩)
        · exact h
        · exact absurd rfl hpne
    | some rec =>
      constructor
      · intro h
        rcases List.mem_append.mp h with h1 | h1
        · exact Or.inl h1
        · have hK := List.mem_singleton.mp h1
          refine Or.inr ⟨hK.symm, ?_⟩
          intro hcontr
          cases hcontr
      · rintro (h | ⟨hk, _⟩)
        · exact List.mem_append.mpr (Or.inl h)
        · refine List.mem_append.mpr (Or.inr ?_)
          rw [← hk]
          exact List.mem_singleton.mpr rfl

theorem foldl_processed_spec (allVars : List RawVariable) (rawColls : List RawCollection) :
    ∀ (l : List RawVariable) (st : VarFoldState) (K : String),
      K ∈ (l.foldl (stepVariable allVars rawColls) st).processed ↔
        K ∈ st.processed ∨
          ∃ w, w ∈ l ∧ varKeyOf rawColls w = K ∧ processVariable allVars rawColls w ≠ none := by
  intro l
  induction l with
  | nil => intro st K; simp
  | cons v rest ih =>
    intro st K
    rw [List.foldl_cons, ih, stepVariable_processed]
    constructor
    · rintro ((h | ⟨hk, hp⟩) | ⟨w, hw, hkw, hpw⟩)
      · exact Or.inl h
      · exact Or.inr ⟨v, List.mem_cons_self v rest, hk, hp⟩
      · exact Or.inr ⟨w, List.mem_cons_of_mem v hw, hkw, hpw⟩
    · rintro (h | ⟨w, hw, hkw, hpw⟩)
      · exact Or.inl (Or.inl h)
      · rcases List.mem_cons.mp hw with h1 | h1
        · subst h1
          exact Or.inl (Or.inr ⟨hkw, hpw⟩)
        · exact Or.inr ⟨w, h1, hkw, hpw⟩

/-- C2 amended: after processing a prefix of the variable list, a variable's
    `(collectionName, variableName)` key is in the duplicate-suppression set —
    so the occurrence is dropped — iff some earlier occurrence with the same
    key produced a record; and a suppressed occurrence leaves the loop state
    completely unchanged (dropped entirely, not merged).  In particular, when
    every earlier occurrence of the key failed to produce a record, a later
    occurrence is processed normally. -/
theorem dedup_amended (allVars : List RawVariable) (rawColls : List RawCollection)
    (init : List (String × CollOut)) (pre : List RawVariable) (v : RawVariable) :
    (varKeyOf rawColls v ∈
        (pre.foldl (stepVariable allVars rawColls) { processed := [], colls := init }).processed ↔
      ∃ w, w ∈ pre ∧ varKeyOf rawColls w = varKeyOf rawColls v ∧
        processVariable allVars rawColls w ≠ none) ∧
    (∀ st : VarFoldState, varKeyOf rawColls v ∈ st.processed →
      stepVariable allVars rawColls st v = st) := by
  constructor
  · rw [foldl_processed_spec]
    simp
  · intro st hmem
    have hmem2 : collectionNameOf rawColls v.variableCollectionId ++ ":" ++ v.name ∈
        st.processed := hmem
    simp only [stepVariable]
    rw [if_pos hmem2]

/-- The C2 counterexample pair: same name, same (missing) collection, so the
    same key `Other:label`; the first has an invalid (empty string) value. -/
def dupVarInvalid : RawVariable :=
  { id := "d1", name := "label", variableCollectionId := "c", resolvedType := "STRING"
    valuesByMode := [("m", JSValue.str (""))] }

/-- The second occurrence of the key, with a valid value. -/
def dupVarValid : RawVariable :=
  { id := "d2", name := "label", variableCollectionId := "c", resolvedType := "STRING"
    valuesByMode := [("m", JSValue.str ("hello"))] }

/-- The run containing both occurrences, first the invalid one. -/
def dupInputs : RawInputs := { «variables» := [dupVarInvalid, dupVarValid] }

/-- C2 counterexample: both variables carry the key `Other:label`; the first
    occurrence produces no record (empty string is invalid), so the second is
    not suppressed — its record (value `"hello"`) appears in the output,
    contradicting the claim that second occurrences are always dropped
    regardless of whether the first produced a record. -/
theorem dedup_second_survives_cx :
    processVariable dupInputs.«variables» [] dupVarInvalid = none ∧
    (buildDocument (fun _ _ => 0) dupInputs).collections =
      [("Other", { id := "c", modes := [],
                   strings := [{ name := "label", token := "label", type := "string",
                                 value := JSValue.str ("hello") }] })] := by
  exact ⟨by with_unfolding_all decide, by with_unfolding_all decide⟩

/-- A loop state that already contains the key of `dupVarValid`. -/
def dupState : VarFoldState := { processed := ["Other:label"], colls := [] }

/-- Witness for the amended C2 theorem: a suppressed occurrence leaves the
    state untouched, and over the concrete prefix `[dupVarInvalid]` the key is
    not yet in the suppression set. -/
theorem dedup_amended_witness :
    (¬ varKeyOf [] dupVarValid ∈
        (([dupVarInvalid]).foldl (stepVariable dupInputs.«variables» [])
          { processed := [], colls := [] }).processed) ∧
    stepVariable dupInputs.«variables» [] dupState dupVarValid = dupState := by
  constructor
  · intro hmem
    have h := (dedup_amended dupInputs.«variables» [] [] [dupVarInvalid] dupVarValid).1.mp hmem
    obtain ⟨w, hw, _, hpw⟩ := h
    have hw1 : w = dupVarInvalid := List.mem_singleton.mp hw
    subst hw1
    apply hpw
    with_unfolding_all decide
  · exact (dedup_amended dupInputs.«variables» [] [] [] dupVarValid).2 dupState
      (by with_unfolding_all decide)

/-! ### Claim C10: orphan variables are grouped under "Other" -/

theorem addToBucket_modes (co : CollOut) (rec : VariableRecord) :
    (addToBucket co rec).modes = co.modes := by
  unfold addToBucket
  split_ifs <;> rfl

theorem addToBucket_field_suffix (co : CollOut) (rec : VariableRecord) :
    (∃ l, (addToBucket co rec).colors = co.colors ++ l) ∧
    (∃ l, (addToBucket co rec).numbers = co.numbers ++ l) ∧
    (∃ l, (addToBucket co rec).strings = co.strings ++ l) ∧
    (∃ l, (addToBucket co rec).booleans = co.booleans ++ l) := by
  unfold addToBucket
  split_ifs
  · exact ⟨⟨[rec], rfl⟩, ⟨[], by simp⟩, ⟨[], by simp⟩, ⟨[], by simp⟩⟩
  · exact ⟨⟨[], by simp⟩, ⟨[rec], rfl⟩, ⟨[], by simp⟩, ⟨[], by simp⟩⟩
  · exact ⟨⟨[], by simp⟩, ⟨[], by simp⟩, ⟨[rec], rfl⟩, ⟨[], by simp⟩⟩
  · exact ⟨⟨[], by simp⟩, ⟨[], by simp⟩, ⟨[], by simp⟩, ⟨[rec], rfl⟩⟩
  · exact ⟨⟨[], by simp⟩, ⟨[], by simp⟩, ⟨[], by simp⟩, ⟨[], by simp⟩⟩

theorem mem_bucketOf_addToBucket {co : CollOut} {rec r : VariableRecord} {t : String}
    (h : r ∈ bucketOf co t) : r ∈ bucketOf (addToBucket co rec) t := by
  obtain ⟨⟨l1, e1⟩, ⟨l2, e2⟩, ⟨l3, e3⟩, ⟨l4, e4⟩⟩ := addToBucket_field_suffix co rec
  unfold bucketOf at h ⊢
  split_ifs at h ⊢
  · rw [e1]; exact List.mem_append.mpr (Or.inl h)
  · rw [e2]; exact List.mem_append.mpr (Or.inl h)
  · rw [e3]; exact List.mem_append.mpr (Or.inl h)
  · rw [e4]; exact List.mem_append.mpr (Or.inl h)
  · cases h

theorem mem_bucketOf_addToBucket_self (co : CollOut) (rec : VariableRecord)
    (ht : rec.type = "color" ∨ rec.type = "float" ∨ rec.type = "string" ∨
      rec.type = "boolean") :
    rec ∈ bucketOf (addToBucket co rec) rec.type := by
  unfold bucketOf addToBucket
  rcases ht with h | h | h | h
  · rw [h, if_pos rfl]
    exact List.mem_append.mpr (Or.inr (List.mem_singleton.mpr rfl))
  · rw [h, if_neg (by decide : ¬("float" : String) = "color"), if_pos rfl]
    exact List.mem_append.mpr (Or.inr (List.mem_singleton.mpr rfl))
  · rw [h, if_neg (by decide : ¬("string" : String) = "color"),
      if_neg (by decide : ¬("string" : String) = "float"), if_pos rfl]
    exact List.mem_append.mpr (Or.inr (List.mem_singleton.mpr rfl))
  · rw [h, if_neg (by decide : ¬("boolean" : String) = "color"),
      if_neg (by decide : ¬("boolean" : String) = "float"),
      if_neg (by decide : ¬("boolean" : String) = "string"), if_pos rfl]
    exact List.mem_append.mpr (Or.inr (List.mem_singleton.mpr rfl))

theorem totalVars_pos_of_mem {co : CollOut} {r : VariableRecord} {t : String}
    (h : r ∈ bucketOf co t) : 0 < totalVars co := by
  unfold bucketOf at h
  unfold totalVars
  split_ifs at h
  · have h1 : 0 < co.colors.length := List.length_pos.mpr (List.ne_nil_of_mem h)
    omega
  · have h1 : 0 < co.numbers.length := List.length_pos.mpr (List.ne_nil_of_mem h)
    omega
  · have h1 : 0 < co.strings.length := List.length_pos.mpr (List.ne_nil_of_mem h)
    omega
  · have h1 : 0 < co.booleans.length := List.length_pos.mpr (List.ne_nil_of_mem h)
    omega
  · cases h

theorem mem_setAssoc {α : Type} {l : List (String × α)} {k : String} {v : α}
    {p : String × α} (h : p ∈ setAssoc l k v) : p = (k, v) ∨ p ∈ l := by
  unfold setAssoc at h
  by_cases ha : l.any (fun q => q.1 = k) = true
  · rw [if_pos ha] at h
    obtain ⟨q, hq, hfq⟩ := List.mem_map.mp h
    by_cases hqk : q.1 = k
    · rw [if_pos hqk] at hfq
      exact Or.inl hfq.symm
    · rw [if_neg hqk] at hfq
      exact Or.inr (hfq ▸ hq)
  · rw [if_neg ha] at h
    rcases List.mem_append.mp h with h1 | h1
    · exact Or.inr h1
    · exact Or.inl (List.mem_singleton.mp h1)

theorem initCollections_mem (colls : List RawCollection) :
    ∀ (acc : List (String × CollOut)) (p : String × CollOut),
      p ∈ colls.foldl initStep acc →
      p ∈ acc ∨ ∃ cc, cc ∈ colls ∧ cc.name = some p.1 := by
  induction colls with
  | nil => intro acc p h; exact Or.inl h
  | cons c rest ih =>
    intro acc p h
    rw [List.foldl_cons] at h
    rcases ih _ p h with h1 | ⟨cc, hcc, hname⟩
    · cases hn : c.name with
      | none =>
        simp only [initStep, hn] at h1
        exact Or.inl h1
      | some n =>
        simp only [initStep, hn] at h1
        by_cases hne : n = ""
        · rw [if_pos hne] at h1; exact Or.inl h1
        · rw [if_neg hne] at h1
          rcases mem_setAssoc h1 with h2 | h2
          · right
            refine ⟨c, List.mem_cons_self c rest, ?_⟩
            rw [hn]
            rw [congrArg Prod.fst h2]
          · exact Or.inl h2
    · exact Or.inr ⟨cc, List.mem_cons_of_mem c hcc, hname⟩

theorem collectionNameOf_eq_other (rawColls : List RawCollection)
    (hnames : ∀ cc ∈ rawColls, ∃ n, cc.name = some n ∧ n ≠ "" ∧ n ≠ "Other")
    (cid : String) (h : collectionNameOf rawColls cid = "Other") :
    collectionMapGet rawColls cid = none := by
  cases hget : collectionMapGet rawColls cid with
  | none => rfl
  | some c =>
    have hc : c ∈ rawColls := by
      have h2 := List.mem_of_find?_eq_some hget
      exact List.mem_reverse.mp h2
    obtain ⟨n, hn1, hn2, hn3⟩ := hnames c hc
    simp only [collectionNameOf, hget, hn1] at h
    rw [if_neg hn2] at h
    exact absurd h hn3

theorem stepVariable_other_modes (allVars : List RawVariable) (rawColls : List RawCollection)
    (hnames : ∀ cc ∈ rawColls, ∃ n, cc.name = some n ∧ n ≠ "" ∧ n ≠ "Other")
    (st : VarFoldState) (v : RawVariable)
    (hst : ∀ co, ("Other", co) ∈ st.colls → co.modes = []) :
    ∀ co, ("Other", co) ∈ (stepVariable allVars rawColls st v).colls → co.modes = [] := by
  intro co hco
  by_cases hmem :
      (collectionNameOf rawColls v.variableCollectionId ++ ":" ++ v.name) ∈ st.processed
  · have hsame : stepVariable allVars rawColls st v = st := by
      simp only [stepVariable]
      rw [if_pos hmem]
    rw [hsame] at hco
    exact hst co hco
  · cases hp : processVariable allVars rawColls v with
    | none =>
      have hsame : stepVariable allVars rawColls st v = st := by
        simp only [stepVariable]
        rw [if_neg hmem, hp]
      rw [hsame] at hco
      exact hst co hco
    | some rec =>
      have hcolls : (stepVariable allVars rawColls st v).colls =
          (if st.colls.any (fun p => p.1 = collectionNameOf rawColls v.variableCollectionId)
            then st.colls
            else st.colls ++ [(collectionNameOf rawColls v.variableCollectionId,
              freshCollOut v.variableCollectionId
                (collectionMapGet rawColls v.variableCollectionId))]).map
            (fun p => if p.1 = collectionNameOf rawColls v.variableCollectionId
              then (p.1, addToBucket p.2 rec) else p) := by
        simp only [stepVariable]
        rw [if_neg hmem, hp]
      rw [hcolls] at hco
      obtain ⟨p, hpmem, hpeq⟩ := List.mem_map.mp hco
      have hpOther : p.1 = "Other" := by
        by_cases hpc : p.1 = collectionNameOf rawColls v.variableCollectionId
        · rw [if_pos hpc] at hpeq
          exact congrArg Prod.fst hpeq
        · rw [if_neg hpc] at hpeq
          exact congrArg Prod.fst hpeq
      have hpmodes : p.2.modes = [] := by
        by_cases hany :
            st.colls.any (fun q => q.1 = collectionNameOf rawColls v.variableCollectionId) = true
        · rw [if_pos hany] at hpmem
          refine hst p.2 ?_
          rw [← hpOther]
          exact hpmem
        · rw [if_neg hany] at hpmem
          rcases List.mem_append.mp hpmem with h1 | h1
          · refine hst p.2 ?_
            rw [← hpOther]
            exact h1
          · have hpfresh := List.mem_singleton.mp h1
            have hfst : p.1 = collectionNameOf rawColls v.variableCollectionId := by
              rw [hpfresh]
            have hcoll : collectionNameOf rawColls v.variableCollectionId = "Other" := by
              rw [← hfst]
              exact hpOther
            have hlookup := collectionNameOf_eq_other rawColls hnames _ hcoll
            have hsnd : p.2 = freshCollOut v.variableCollectionId
                (collectionMapGet rawColls v.variableCollectionId) := by
              rw [hpfresh]
            rw [hsnd, hlookup]
            rfl
      by_cases hpc : p.1 = collectionNameOf rawColls v.variableCollectionId
      · rw [if_pos hpc] at hpeq
        injection hpeq with ha hb
        rw [← hb, addToBucket_modes]
        exact hpmodes
      · rw [if_neg hpc] at hpeq
        rw [hpeq] at hpmodes
        exact hpmodes

theorem foldl_other_modes (allVars : List RawVariable) (rawColls : List RawCollection)
    (hnames : ∀ cc ∈ rawColls, ∃ n, cc.name = some n ∧ n ≠ "" ∧ n ≠ "Other") :
    ∀ (l : List RawVariable) (st : VarFoldState),
      (∀ co, ("Other", co) ∈ st.colls → co.modes = []) →
      ∀ co, ("Other", co) ∈ (l.foldl (stepVariable allVars rawColls) st).colls →
        co.modes = [] := by
  intro l
  induction l with
  | nil => intro st h co hco; exact h co hco
  | cons v rest ih =>
    intro st h co hco
    rw [List.foldl_cons] at hco
    exact ih _ (stepVariable_other_modes allVars rawColls hnames st v h) co hco

theorem stepVariable_colls_mono (allVars : List RawVariable) (rawColls : List RawCollection)
    (st : VarFoldState) (v : RawVariable) (N : String) (co : CollOut)
    (h : (N, co) ∈ st.colls) :
    ∃ co2, (N, co2) ∈ (stepVariable allVars rawColls st v).colls ∧
      co2.modes = co.modes ∧ ∀ t r, r ∈ bucketOf co t → r ∈ bucketOf co2 t := by
  by_cases hmem :
      (collectionNameOf rawColls v.variableCollectionId ++ ":" ++ v.name) ∈ st.processed
  · have hsame : stepVariable allVars rawColls st v = st := by
      simp only [stepVariable]
      rw [if_pos hmem]
    rw [hsame]
    exact ⟨co, h, rfl, fun _ _ hr => hr⟩
  · cases hp : processVariable allVars rawColls v with
    | none =>
      have hsame : stepVariable allVars rawColls st v = st := by
        simp only [stepVariable]
        rw [if_neg hmem, hp]
      rw [hsame]
      exact ⟨co, h, rfl, fun _ _ hr => hr⟩
    | some rec =>
      have hcolls : (stepVariable allVars rawColls st v).colls =
          (if st.colls.any (fun p => p.1 = collectionNameOf rawColls v.variableCollectionId)
            then st.colls
            else st.colls ++ [(collectionNameOf rawColls v.variableCollectionId,
              freshCollOut v.variableCollectionId
                (collectionMapGet rawColls v.variableCollectionId))]).map
            (fun p => if p.1 = collectionNameOf rawColls v.variableCollectionId
              then (p.1, addToBucket p.2 rec) else p) := by
        simp only [stepVariable]
        rw [if_neg hmem, hp]
      have h1 : (N, co) ∈
          (if st.colls.any (fun p => p.1 = collectionNameOf rawColls v.variableCollectionId)
            then st.colls
            else st.colls ++ [(collectionNameOf rawColls v.variableCollectionId,
              freshCollOut v.variableCollectionId
                (collectionMapGet rawColls v.variableCollectionId))]) := by
        split_ifs
        · exact h
        · exact List.mem_append.mpr (Or.inl h)
      by_cases hN : N = collectionNameOf rawColls v.variableCollectionId
      · refine ⟨addToBucket co rec, ?_, addToBucket_modes co rec,
          fun t r hr => mem_bucketOf_addToBucket hr⟩
        rw [hcolls]
        have hmm := List.mem_map_of_mem
          (fun p : String × CollOut =>
            if p.1 = collectionNameOf rawColls v.variableCollectionId
            then (p.1, addToBucket p.2 rec) else p) h1
        have happ : ((fun p : String × CollOut =>
            if p.1 = collectionNameOf rawColls v.variableCollectionId
            then (p.1, addToBucket p.2 rec) else p) (N, co)) = (N, addToBucket co rec) := by
          simp [hN]
        rw [happ] at hmm
        exact hmm
      · refine ⟨co, ?_, rfl, fun _ _ hr => hr⟩
        rw [hcolls]
        have hmm := List.mem_map_of_mem
          (fun p : String × CollOut =>
            if p.1 = collectionNameOf rawColls v.variableCollectionId
            then (p.1, addToBucket p.2 rec) else p) h1
        have happ : ((fun p : String × CollOut =>
            if p.1 = collectionNameOf rawColls v.variableCollectionId
            then (p.1, addToBucket p.2 rec) else p) (N, co)) = (N, co) := by
          simp [hN]
        rw [happ] at hmm
        exact hmm

theorem foldl_colls_mono (allVars : List RawVariable) (rawColls : List RawCollection) :
    ∀ (l : List RawVariable) (st : VarFoldState) (N : String) (co : CollOut),
      (N, co) ∈ st.colls →
      ∃ co2, (N, co2) ∈ (l.foldl (stepVariable allVars rawColls) st).colls ∧
        co2.modes = co.modes ∧ ∀ t r, r ∈ bucketOf co t → r ∈ bucketOf co2 t := by
  intro l
  induction l with
  | nil => intro st N co h; exact ⟨co, h, rfl, fun _ _ hr => hr⟩
  | cons v rest ih =>
    intro st N co h
    rw [List.foldl_cons]
    obtain ⟨co1, h1, hm1, hb1⟩ := stepVariable_colls_mono allVars rawColls st v N co h
    obtain ⟨co2, h2, hm2, hb2⟩ := ih _ N co1 h1
    exact ⟨co2, h2, hm2.trans hm1, fun t r hr => hb2 t r (hb1 t r hr)⟩

theorem stepVariable_creates_other (allVars : List RawVariable) (rawColls : List RawCollection)
    (st : VarFoldState) (v : RawVariable) (rec : VariableRecord)
    (hkey : ¬ (collectionNameOf rawColls v.variableCollectionId ++ ":" ++ v.name) ∈ st.processed)
    (hrec : processVariable allVars rawColls v = some rec)
    (hcoll : collectionNameOf rawColls v.variableCollectionId = "Other")
    (hlookup : collectionMapGet rawColls v.variableCollectionId = none)
    (hother : ∀ co, ("Other", co) ∈ st.colls → co.modes = [])
    (htype : rec.type = "color" ∨ rec.type = "float" ∨ rec.type = "string" ∨
      rec.type = "boolean") :
    ∃ co2, ("Other", co2) ∈ (stepVariable allVars rawColls st v).colls ∧ co2.modes = [] ∧
      rec ∈ bucketOf co2 rec.type := by
  have hcolls : (stepVariable allVars rawColls st v).colls =
      (if st.colls.any (fun p => p.1 = "Other") then st.colls
        else st.colls ++ [("Other", freshCollOut v.variableCollectionId none)]).map
        (fun p => if p.1 = "Other" then (p.1, addToBucket p.2 rec) else p) := by
    simp only [stepVariable]
    rw [if_neg hkey, hrec, hcoll, hlookup]
  rw [hcolls]
  by_cases hany : st.colls.any (fun p => p.1 = "Other") = true
  · rw [if_pos hany]
    obtain ⟨p, hpmem, hpdec⟩ := List.any_eq_true.mp hany
    have hp1 : p.1 = "Other" := of_decide_eq_true hpdec
    refine ⟨addToBucket p.2 rec, ?_, ?_, mem_bucketOf_addToBucket_self p.2 rec htype⟩
    · have hmm := List.mem_map_of_mem
        (fun q : String × CollOut => if q.1 = "Other" then (q.1, addToBucket q.2 rec) else q)
        hpmem
      have happ : ((fun q : String × CollOut =>
          if q.1 = "Other" then (q.1, addToBucket q.2 rec) else q) p) =
          ("Other", addToBucket p.2 rec) := by
        simp [hp1]
      rw [happ] at hmm
      exact hmm
    · rw [addToBucket_modes]
      refine hother p.2 ?_
      rw [← hp1]
      exact hpmem
  · rw [if_neg hany]
    refine ⟨addToBucket (freshCollOut v.variableCollectionId none) rec, ?_, ?_,
      mem_bucketOf_addToBucket_self _ rec htype⟩
    · have hmem0 : ("Other", freshCollOut v.variableCollectionId none) ∈
          st.colls ++ [("Other", freshCollOut v.variableCollectionId none)] :=
        List.mem_append.mpr (Or.inr (List.mem_singleton.mpr rfl))
      have hmm := List.mem_map_of_mem
        (fun q : String × CollOut => if q.1 = "Other" then (q.1, addToBucket q.2 rec) else q)
        hmem0
      have happ : ((fun q : String × CollOut =>
          if q.1 = "Other" then (q.1, addToBucket q.2 rec) else q)
            ("Other", freshCollOut v.variableCollectionId none)) =
          ("Other", addToBucket (freshCollOut v.variableCollectionId none) rec) := by
        simp
      rw [happ] at hmm
      exact hmm
    · rw [addToBucket_modes]
      rfl

theorem convert_keys (allVars : List RawVariable) (coll : Option RawCollection) (rt : String) :
    ∀ (l : List (String × JSValue)) (acc : List (String × JSValue) × Bool),
      (∀ p ∈ acc.1, ∃ mid, p.1 = modeNameFor coll mid) →
      ∀ p ∈ (l.foldl (convertStep allVars coll rt) acc).1, ∃ mid, p.1 = modeNameFor coll mid := by
  intro l
  induction l with
  | nil => intro acc hacc p hp; exact hacc p hp
  | cons q rest ih =>
    intro acc hacc p hp
    rw [List.foldl_cons] at hp
    refine ih _ ?_ p hp
    intro p2 hp2
    cases hc : cleanModeValue allVars rt q.1 q.2 with
    | none =>
      simp only [convertStep, hc] at hp2
      exact hacc p2 hp2
    | some cv =>
      simp only [convertStep, hc] at hp2
      rcases mem_setAssoc hp2 with h1 | h1
      · exact ⟨q.1, congrArg Prod.fst h1⟩
      · exact hacc p2 h1

/-- C10 amended: a variable whose `variableCollectionId` matches no fetched
    collection is still exported when it yields a record — grouped under the
    collection named "Other" with an empty mode list, every one of its mode
    names synthesized as `"Mode {modeId}"` — provided no fetched collection is
    itself named "Other" (or nameless), no earlier occurrence of the same key
    produced a record, and the variable's resolved type is one of the four
    exported kinds. -/
theorem orphan_grouped_other (atan2deg : ℚ → ℚ → ℤ) (inputs : RawInputs)
    (pre post : List RawVariable) (v : RawVariable) (rec : VariableRecord)
    (hsplit : inputs.«variables» = pre ++ v :: post)
    (hnames : ∀ cc ∈ inputs.collections, ∃ n, cc.name = some n ∧ n ≠ "" ∧ n ≠ "Other")
    (horphan : ∀ cc ∈ inputs.collections, cc.id ≠ v.variableCollectionId)
    (hrec : processVariable inputs.«variables» inputs.collections v = some rec)
    (htype : rec.type = "color" ∨ rec.type = "float" ∨ rec.type = "string" ∨
      rec.type = "boolean")
    (hfirst : ∀ w ∈ pre, ¬(varKeyOf inputs.collections w = varKeyOf inputs.collections v ∧
      processVariable inputs.«variables» inputs.collections w ≠ none)) :
    (∃ co, ("Other", co) ∈ (buildDocument atan2deg inputs).collections ∧
      co.modes = [] ∧ rec ∈ bucketOf co rec.type) ∧
    (∀ p ∈ (convertedValuesOf inputs.«variables» inputs.collections v).1,
      ∃ mid, p.1 = "Mode " ++ mid) := by
  have hlookup : collectionMapGet inputs.collections v.variableCollectionId = none := by
    unfold collectionMapGet
    rw [List.find?_eq_none]
    intro c hc
    simp only [decide_eq_true_eq]
    exact horphan c (List.mem_reverse.mp hc)
  have hcollName : collectionNameOf inputs.collections v.variableCollectionId = "Other" := by
    unfold collectionNameOf
    rw [hlookup]
  constructor
  · have hinit : ∀ co, ("Other", co) ∈ initCollections inputs.collections → co.modes = [] := by
      intro co hco
      rcases initCollections_mem inputs.collections [] ("Other", co) hco with h0 | ⟨cc, hcc, hnm⟩
      · cases h0
      · obtain ⟨n, hn1, _, hn3⟩ := hnames cc hcc
        have heq : some n = some ("Other") := hn1.symm.trans hnm
        injection heq with heq2
        exact absurd heq2 hn3
    have hkey_not :
        ¬ (collectionNameOf inputs.collections v.variableCollectionId ++ ":" ++ v.name) ∈
          (pre.foldl (stepVariable inputs.«variables» inputs.collections)
            { processed := [], colls := initCollections inputs.collections }).processed := by
      intro hmem
      rcases (foldl_processed_spec inputs.«variables» inputs.collections pre _ _).mp hmem with
        h | ⟨w, hw, hkw, hpw⟩
      · simp at h
      · exact hfirst w hw ⟨hkw, hpw⟩
    have hother1 := foldl_other_modes inputs.«variables» inputs.collections hnames pre
      { processed := [], colls := initCollections inputs.collections } hinit
    obtain ⟨co2, hmem2, hmodes2, hbucket2⟩ :=
      stepVariable_creates_other inputs.«variables» inputs.collections _ v rec hkey_not hrec
        hcollName hlookup hother1 htype
    obtain ⟨co3, hmem3, hmodes3, hbucket3⟩ :=
      foldl_colls_mono inputs.«variables» inputs.collections post _ "Other" co2 hmem2
    refine ⟨co3, ?_, hmodes3.trans hmodes2, hbucket3 rec.type rec hbucket2⟩
    simp only [buildDocument]
    refine List.mem_filter.mpr ⟨?_, ?_⟩
    · unfold runVarFold
      nth_rewrite 2 [hsplit]
      rw [List.foldl_append, List.foldl_cons]
      exact hmem3
    · simp only [decide_eq_true_eq]
      intro h0
      have hpos := totalVars_pos_of_mem (hbucket3 rec.type rec hbucket2)
      omega
  · intro p hp
    unfold convertedValuesOf at hp
    rw [hlookup] at hp
    obtain ⟨mid, hmid⟩ := convert_keys inputs.«variables» none v.resolvedType v.valuesByMode
      ([], false) (by intro p2 hp2; cases hp2) p hp
    exact ⟨mid, hmid⟩

/-- A fetched collection that happens to be named "Other". -/
def otherNamedCollection : RawCollection :=
  { id := "c1", name := some ("Other")
    modes := [{ modeId := some ("m1"), name := some ("Light") }] }

/-- The orphan variable together with that collection. -/
def orphanWithOtherInputs : RawInputs :=
  { «variables» := [orphanFloatVar], collections := [otherNamedCollection] }

/-- C10 counterexample: when a fetched collection is itself named "Other", an
    orphan variable is pushed into that real collection, whose mode list is
    `[Light]` — not the synthesized empty-mode collection the claim promises. -/
theorem orphan_other_nonempty_modes_cx :
    (buildDocument (fun _ _ => 0) orphanWithOtherInputs).collections =
      [("Other", { id := "c1", modes := [{ id := some ("m1"), name := "Light" }],
                   numbers := [gapRecord] })] := by
  with_unfolding_all decide

/-- Witness for the amended C10 theorem at the single-orphan run. -/
theorem orphan_grouped_other_witness :
    (∃ co, ("Other", co) ∈ (buildDocument (fun _ _ => 0) singleVarInputs).collections ∧
      co.modes = [] ∧ gapRecord ∈ bucketOf co gapRecord.type) ∧
    (∀ p ∈ (convertedValuesOf singleVarInputs.«variables» singleVarInputs.collections
        orphanFloatVar).1, ∃ mid, p.1 = "Mode " ++ mid) :=
  orphan_grouped_other (fun _ _ => 0) singleVarInputs [] [] orphanFloatVar gapRecord rfl
    (by intro cc hcc; cases hcc) (by intro cc hcc; cases hcc)
    (by with_unfolding_all decide) (Or.inr (Or.inl rfl))
    (by intro w hw; cases hw)

end TokenSync








